import Mathlib

namespace OvpnAdmin

/-- Go strings are modelled as lists of characters. -/
abbrev GoString := List Char

/-- Whitespace per Go's `unicode.IsSpace` (the White_Space property),
used by `strings.Fields`. -/
def isWsp (c : Char) : Bool :=
  let n := c.toNat
  n = 32 || (9 ≤ n && n ≤ 13) || n = 133 || n = 160 ||
  n = 5760 || (8192 ≤ n && n ≤ 8202) || n = 8232 || n = 8233 ||
  n = 8239 || n = 8287 || n = 12288

/-- Split a character list at every occurrence of `sep`, keeping empty
segments, as Go's `strings.Split` does for a one-character separator. -/
def splitOnChar (sep : Char) : List Char → List (List Char)
  | [] => [[]]
  | c :: cs =>
    match splitOnChar sep cs with
    | [] => [[]]
    | w :: ws => if c = sep then [] :: w :: ws else (c :: w) :: ws

example : splitOnChar ',' "a,bc,".data = ["a".data, "bc".data, []] := by decide

/-- Accumulator worker for `goFields`: `acc` holds the current word reversed. -/
def fieldsAux (acc : List Char) : List Char → List (List Char)
  | [] => if acc.isEmpty then [] else [acc.reverse]
  | c :: cs =>
    if isWsp c then
      if acc.isEmpty then fieldsAux [] cs
      else acc.reverse :: fieldsAux [] cs
    else fieldsAux (c :: acc) cs

/-- Go's `strings.Fields`: split around runs of whitespace, dropping empties. -/
def goFields (l : List Char) : List (List Char) :=
  fieldsAux [] l

example : goFields "V\t250101000000Z\t\tAB\tunknown\t/CN=alice".data =
    ["V".data, "250101000000Z".data, "AB".data, "unknown".data, "/CN=alice".data] := by
  decide

/-- Go's `strings.Trim` for a one-character cut set: remove all leading and
trailing occurrences of `cut`. -/
def trimChar (cut : Char) (s : GoString) : GoString :=
  ((s.dropWhile (fun c => c = cut)).reverse.dropWhile (fun c => c = cut)).reverse

/-- One record of the certificate registry (`indexTxtLine` in the source). -/
structure IndexTxtLine where
  Flag : GoString
  ExpirationDate : GoString
  RevocationDate : GoString
  SerialNumber : GoString
  Filename : GoString
  DistinguishedName : GoString
  Identity : GoString
  deriving Repr, DecidableEq

/-- Go's `str[strings.Index(str, "=")+1:]`: everything after the first `=`;
when no `=` occurs, `strings.Index` returns `-1` and the whole string is kept. -/
def afterFirstEq (d : GoString) : GoString :=
  match d.dropWhile (fun c => c ≠ '=') with
  | [] => d
  | _ :: rest => rest

/-- One iteration of the `indexTxtParser` loop on a single line.
`none` models a Go index-out-of-range panic; `some none` a silently
skipped line; `some (some r)` an appended record. -/
def parseIndexLine (line : GoString) : Option (Option IndexTxtLine) :=
  match goFields line with
  | [] => some none
  | s0 :: rest =>
    if ("V".data).isPrefixOf s0 then
      match rest with
      | e :: s :: f :: d :: _ => some (some ⟨s0, e, [], s, f, d, afterFirstEq d⟩)
      | _ => none
    else if ("R".data).isPrefixOf s0 then
      match rest with
      | e :: r :: s :: f :: d :: _ => some (some ⟨s0, e, r, s, f, d, afterFirstEq d⟩)
      | _ => none
    else some none

/-- The `indexTxtParser` loop over the split lines. -/
def parseIndexLines : List GoString → Option (List IndexTxtLine)
  | [] => some []
  | l :: ls =>
    match parseIndexLine l with
    | none => none
    | some none => parseIndexLines ls
    | some (some r) =>
      match parseIndexLines ls with
      | none => none
      | some rs => some (r :: rs)

/-- `indexTxtParser` from the source: split the text on newlines, tokenize
each line with `strings.Fields`, keep `V`- and `R`-flagged records. -/
def indexTxtParser (txt : GoString) : Option (List IndexTxtLine) :=
  parseIndexLines (splitOnChar '\n' txt)

/-- The line `renderIndexTxt` produces for one record, newline included:
`V` records print flag, expiration, an empty revocation column, serial,
filename, DN; `R` records print all six columns; other flags print nothing. -/
def renderIndexLine (r : IndexTxtLine) : GoString :=
  if r.Flag = "V".data then
    r.Flag ++ '\t' :: r.ExpirationDate ++ '\t' :: '\t' :: r.SerialNumber ++
      '\t' :: r.Filename ++ '\t' :: r.DistinguishedName ++ ['\n']
  else if r.Flag = "R".data then
    r.Flag ++ '\t' :: r.ExpirationDate ++ '\t' :: r.RevocationDate ++ '\t' :: r.SerialNumber ++
      '\t' :: r.Filename ++ '\t' :: r.DistinguishedName ++ ['\n']
  else []

/-- `renderIndexTxt` from the source: concatenate the rendered lines. -/
def renderIndexTxt (rs : List IndexTxtLine) : GoString :=
  (rs.map renderIndexLine).flatten

/-- One route of a client policy file (`ccdRoute` in the source). -/
structure CcdRoute where
  Address : GoString
  Mask : GoString
  Description : GoString
  deriving Repr, DecidableEq

/-- A client policy entry (`Ccd` in the source). -/
structure Ccd where
  User : GoString
  ClientAddress : GoString
  CustomRoutes : List CcdRoute
  deriving Repr, DecidableEq

/-- One iteration of the `parseCcd` loop on a single line; `none` models a
Go index-out-of-range panic. -/
def parseCcdLine (ccd : Ccd) (line : GoString) : Option Ccd :=
  match goFields line with
  | [] => some ccd
  | s0 :: rest =>
    if ("ifconfig-push".data).isPrefixOf s0 then
      match rest with
      | a :: _ => some ⟨ccd.User, a, ccd.CustomRoutes⟩
      | [] => none
    else if ("push".data).isPrefixOf s0 then
      match rest with
      | _ :: a :: m :: ds =>
        some ⟨ccd.User, ccd.ClientAddress,
          ccd.CustomRoutes ++ [⟨trimChar '"' a, trimChar '"' m, trimChar '#' ds.flatten⟩]⟩
      | _ => none
    else some ccd

/-- The `parseCcd` loop over the split lines, threading the entry being built. -/
def parseCcdLines : Ccd → List GoString → Option Ccd
  | ccd, [] => some ccd
  | ccd, l :: ls =>
    match parseCcdLine ccd l with
    | none => none
    | some c => parseCcdLines c ls

/-- `parseCcd` from the source, with the backing file's content made an
explicit argument: start from the defaults (`dynamic`, no routes) and fold
the recognized lines. -/
def parseCcd (username : GoString) (content : GoString) : Option Ccd :=
  parseCcdLines ⟨username, "dynamic".data, []⟩ (splitOnChar '\n' content)

/-- ASCII decimal digit. -/
def isDigit (c : Char) : Bool :=
  48 ≤ c.toNat && c.toNat ≤ 57

/-- Decimal value of a digit string. -/
def digitsToNat (w : GoString) : Nat :=
  w.foldl (fun a c => 10 * a + (c.toNat - 48)) 0

/-- One dotted-quad byte per Go's `net.ParseIP`: 1–3 digits, no leading
zero, value at most 255. -/
def parseIPv4Part (w : GoString) : Option Nat :=
  if w.length = 0 || 3 < w.length || !(w.all isDigit) then none
  else if w.head? = some '0' && w.length ≠ 1 then none
  else if 255 < digitsToNat w then none
  else some (digitsToNat w)

/-- The IPv4 dotted-quad case of Go's `net.ParseIP`, as the 32-bit value of
the address; `none` models Go's `nil` result. -/
def parseIP (s : GoString) : Option Nat :=
  match splitOnChar '.' s with
  | [a, b, c, d] =>
    match parseIPv4Part a, parseIPv4Part b, parseIPv4Part c, parseIPv4Part d with
    | some x, some y, some z, some w => some (((x * 256 + y) * 256 + z) * 256 + w)
    | _, _, _, _ => none
  | _ => none

/-- 32-bit value of a dotted quad given its four bytes. -/
def ipv4 (a b c d : Nat) : Nat :=
  ((a * 256 + b) * 256 + c) * 256 + d

/-- The configured VPN network, as `net.ParseCIDR` yields it: a base
address and a mask width. -/
structure CIDR where
  base : Nat
  maskBits : Nat
  deriving Repr, DecidableEq

/-- Go's `IPNet.Contains`: the address agrees with the base on the first
`maskBits` bits. -/
def cidrContains (net : CIDR) (ip : Nat) : Bool :=
  ip / 2 ^ (32 - net.maskBits) = net.base / 2 ^ (32 - net.maskBits)

/-- Modelled from the spec: `checkStaticAddressIsFree` shells out through
`runBash` (a repo helper not under src/) to scan the stored policy files;
per the spec it is a "uniqueness scan" that fails exactly when some other
entry already claims the address. -/
def checkStaticAddressIsFree (staticAddress : GoString) (username : GoString)
    (entries : List Ccd) : Bool :=
  entries.all (fun e => e.User = username || e.ClientAddress ≠ staticAddress)

/-- The route loop at the end of `validateCcd`: each route's address and
mask must parse as an IP; the first offender's message is returned. -/
def validateRoutes : List CcdRoute → Bool × GoString
  | [] => (true, [])
  | r :: rest =>
    if (parseIP r.Address).isNone then
      (false, "CustomRoute.Address \"".data ++ r.Address ++ "\" must be a valid IP address".data)
    else if (parseIP r.Mask).isNone then
      (false, "CustomRoute.Mask \"".data ++ r.Mask ++ "\" must be a valid IP address".data)
    else validateRoutes rest

/-- `validateCcd` from the source; the configured subnet (`net.ParseCIDR`
of `*openvpnNetwork`) and the other stored entries are explicit arguments. -/
def validateCcd (entries : List Ccd) (subnet : CIDR) (ccd : Ccd) : Bool × GoString :=
  if ccd.ClientAddress ≠ "dynamic".data then
    if !(checkStaticAddressIsFree ccd.ClientAddress ccd.User entries) then
      (false, "ClientAddress \"".data ++ ccd.ClientAddress ++ "\" already assigned to another user".data)
    else if (parseIP ccd.ClientAddress).isNone then
      (false, "ClientAddress \"".data ++ ccd.ClientAddress ++ "\" not a valid IP address".data)
    else if !(cidrContains subnet ((parseIP ccd.ClientAddress).getD 0)) then
      (false, "ClientAddress \"".data ++ ccd.ClientAddress ++ "\" not belongs to openvpn server network".data)
    else validateRoutes ccd.CustomRoutes
  else validateRoutes ccd.CustomRoutes

/-- Modelled from the spec: the template `ccd.tpl` is not under src/; per
the spec, render reproduces `ifconfig-push <address>` (omitted when
dynamic) and one `push "route <address> <mask>" # <description>` line per
custom route. -/
def renderCcd (ccd : Ccd) : GoString :=
  (if ccd.ClientAddress ≠ "dynamic".data then
    "ifconfig-push ".data ++ ccd.ClientAddress ++ ['\n']
  else []) ++
  (ccd.CustomRoutes.map (fun r =>
    "push \"route ".data ++ r.Address ++ [' '] ++ r.Mask ++ "\" # ".data ++
      r.Description ++ ['\n'])).flatten

/-- `modifyCcd` from the source, with the backing policy file's content as
explicit state (`none` = absent). The file helpers `fCreate`/`fWrite` are
repo code not under src/ and are modelled from the spec: `fCreate` creates
an empty file when absent and succeeds, `fWrite` overwrites wholesale. -/
def modifyCcd (entries : List Ccd) (subnet : CIDR) (file : Option GoString)
    (ccd : Ccd) : Option GoString × Bool × GoString :=
  let file1 := some (file.getD [])
  match validateCcd entries subnet ccd with
  | (ccdValid, ccdErr) =>
    if ccdErr ≠ [] then (file1, false, ccdErr)
    else if ccdValid then (some (renderCcd ccd), true, "ccd updated successfully".data)
    else (file1, false, "something goes wrong".data)

/-- One live session (`clientStatus` in the source); Go's zero value for
every omitted field is the empty string. -/
structure ClientStatus where
  CommonName : GoString
  RealAddress : GoString
  BytesReceived : GoString
  BytesSent : GoString
  ConnectedSince : GoString
  VirtualAddress : GoString
  LastRef : GoString
  ConnectedSinceFormatted : GoString
  LastRefFormatted : GoString
  deriving Repr, DecidableEq

/-- Go's zero value of `clientStatus`. -/
def emptyClientStatus : ClientStatus :=
  ⟨[], [], [], [], [], [], [], [], []⟩

/-- The client-list branch of the status loop: split the row on commas,
read the first five columns (a shorter row panics: `none`), append. -/
def processClientLine (u : List ClientStatus) (txt : GoString) :
    Option (List ClientStatus) :=
  match splitOnChar ',' txt with
  | c0 :: c1 :: c2 :: c3 :: c4 :: _ => some (u ++ [⟨c0, c1, c2, c3, c4, [], [], [], []⟩])
  | _ => none

/-- The routing-table branch: scan for the first record whose common name
equals column 1 and fill its virtual address (column 0) and last-ref
(column 3), then stop. Column 1 is read at every comparison and columns
0/3 only on a match, so a short row panics (`none`) exactly as the Go
indexing does. -/
def routeScan (parts : List GoString) : List ClientStatus → Option (List ClientStatus)
  | [] => some []
  | c :: cs =>
    match parts[1]? with
    | none => none
    | some p1 =>
      if c.CommonName = p1 then
        match parts[0]?, parts[3]? with
        | some p0, some p3 =>
          some (⟨c.CommonName, c.RealAddress, c.BytesReceived, c.BytesSent,
            c.ConnectedSince, p0, p3, c.ConnectedSinceFormatted, c.LastRefFormatted⟩ :: cs)
        | _, _ => none
      else
        match routeScan parts cs with
        | none => none
        | some cs2 => some (c :: cs2)

/-- The client-list header line recognized by the status loop. -/
def clientListHdr : GoString :=
  "Common Name,Real Address,Bytes Received,Bytes Sent,Connected Since".data

/-- The line ending the client-list section. -/
def routingTableMark : GoString :=
  "ROUTING TABLE".data

/-- The routing-table header line. -/
def routeHdr : GoString :=
  "Virtual Address,Common Name,Real Address,Last Ref".data

/-- The line terminating parsing of a status report. -/
def globalStatsMark : GoString :=
  "GLOBAL STATS".data

/-- The `mgmtConnectedUsersParser` scanner loop over the report's lines,
threading the record list and the two section flags. The two section
branches are independent `if`s in the source, so a line can be handled by
both when both flags are set. -/
def mgmtLoop : List GoString → List ClientStatus → Bool → Bool → Option (List ClientStatus)
  | [], u, _, _ => some u
  | txt :: rest, u, icl, irt =>
    if txt = clientListHdr then mgmtLoop rest u true irt
    else if txt = routingTableMark then mgmtLoop rest u false irt
    else if txt = routeHdr then mgmtLoop rest u icl true
    else if txt = globalStatsMark then some u
    else
      match (if icl then processClientLine u txt else some u) with
      | none => none
      | some u1 =>
        match (if irt then routeScan (splitOnChar ',' txt) u1 else some u1) with
        | none => none
        | some u2 => mgmtLoop rest u2 icl irt

/-- `bufio.Scanner` with `ScanLines`: newline-separated lines, no token for
a trailing newline, carriage returns stripped from line ends. -/
def scannerLines (txt : GoString) : List GoString :=
  let ls := splitOnChar '\n' txt
  let ls := if ls.getLast? = some [] then ls.dropLast else ls
  ls.map (fun l => if l.getLast? = some '\r' then l.dropLast else l)

/-- `mgmtConnectedUsersParser` from the source. -/
def mgmtConnectedUsersParser (text : GoString) : Option (List ClientStatus) :=
  mgmtLoop (scannerLines text) [] false false

/-- One servable row (`OpenvpnClient` in the source). -/
structure OpenvpnClient where
  Identity : GoString
  AccountStatus : GoString
  ExpirationDate : GoString
  RevocationDate : GoString
  ConnectionStatus : GoString
  deriving Repr, DecidableEq

/-- `isUserConnected` from the source: linear scan for a session with the
given common name. -/
def isUserConnected (username : GoString) : List ClientStatus → Bool
  | [] => false
  | c :: cs => if c.CommonName = username then true else isUserConnected username cs

/-- Go's `/` on integers: truncation toward zero. -/
def goDiv (a b : Int) : Int :=
  Int.tdiv a b

/-- `(parseDateToUnix(layout, date) - apochNow) / 3600 / 24` from the
source; `parseDateToUnix` is a repo helper not under src/ and is passed in
as `dateUnix`. -/
def expireDays (dateUnix : GoString → Int) (apochNow : Int) (e : GoString) : Int :=
  goDiv (goDiv (dateUnix e - apochNow) 3600) 24

/-- One iteration of the `usersList` loop: a non-`server` record is turned
into an `OpenvpnClient` (status per flag, revocation date only for `R`,
connection status from the live sessions); the `server` record only sets
the server certificate-expiry gauge, whose last written value is carried
in the second component. `fmtDate` stands for the repo date-formatting
helper `parseDateToString` (not under src/). -/
def usersListStep (activeClients : List ClientStatus) (fmtDate : GoString → GoString)
    (dateUnix : GoString → Int) (apochNow : Int)
    (st : List OpenvpnClient × Option Int) (line : IndexTxtLine) :
    List OpenvpnClient × Option Int :=
  if line.Identity ≠ "server".data then
    (st.1 ++ [⟨line.Identity,
      if line.Flag = "V".data then "Active".data
      else if line.Flag = "R".data then "Revoked".data
      else if line.Flag = "E".data then "Expired".data
      else [],
      fmtDate line.ExpirationDate,
      if line.Flag = "R".data then fmtDate line.RevocationDate else [],
      if isUserConnected line.Identity activeClients then "Connected".data else []⟩],
     st.2)
  else
    (st.1, some (expireDays dateUnix apochNow line.ExpirationDate))

/-- `usersList` from the source, as a fold over the parsed registry. -/
def usersList (indexLines : List IndexTxtLine) (activeClients : List ClientStatus)
    (fmtDate : GoString → GoString) (dateUnix : GoString → Int) (apochNow : Int) :
    List OpenvpnClient × Option Int :=
  indexLines.foldl (usersListStep activeClients fmtDate dateUnix apochNow) ([], none)

/-- `getUserStatistic` from the source: first session whose common name
matches, otherwise the zero value. -/
def getUserStatistic (username : GoString) : List ClientStatus → ClientStatus
  | [] => emptyClientStatus
  | u :: us => if u.CommonName = username then u else getUserStatistic username us

/-- Outcome of a download handler: 423, 403, or 200 with a
Content-Disposition header value. -/
inductive DownloadResponse where
  | locked : DownloadResponse
  | forbidden : DownloadResponse
  | served : GoString → DownloadResponse
  deriving Repr, DecidableEq

/-- The HTTP status each outcome is written with. -/
def httpStatusOf : DownloadResponse → Nat
  | .locked => 423
  | .forbidden => 403
  | .served _ => 200

/-- `downloadCertsHandler` from the source; the second component records
whether `archiveCerts()` ran (a fresh archive snapshot was regenerated). -/
def downloadCertsHandler (role token syncToken : GoString) : DownloadResponse × Bool :=
  if role = "slave".data then (.locked, false)
  else if token ≠ syncToken then (.forbidden, false)
  else (.served ("attachment; filename=certs.tar.gz".data), true)

/-- `downloadCddHandler` from the source; the second component records
whether `archiveCcd()` ran. -/
def downloadCddHandler (role token syncToken : GoString) : DownloadResponse × Bool :=
  if role = "slave".data then (.locked, false)
  else if token ≠ syncToken then (.forbidden, false)
  else (.served ("attachment; filename=ccd.tar.gz".data), true)

/-- `retryCountMax` from the source. -/
def retryCountMax : Nat :=
  3

/-- One sub-flow of `syncDataFromMaster`: `while failed && retries < max`,
increment `retries`, call the download (its outcome per call given by
`oracle`), and on success clear `failed` and extract (counted in the last
component). The fuel argument carries `max - retries`, so the loop guard
is exact. -/
def syncSubFlow (oracle : Nat → Bool) : Nat → Nat → Bool → Nat → Nat × Bool × Nat
  | 0, retries, failed, ext => (retries, failed, ext)
  | fuel + 1, retries, failed, ext =>
    if failed then
      if oracle retries then syncSubFlow oracle fuel (retries + 1) false (ext + 1)
      else syncSubFlow oracle fuel (retries + 1) true ext
    else (retries, failed, ext)

/-- A sub-flow started as the source starts it: no attempts yet, failed. -/
def runSubFlow (oracle : Nat → Bool) : Nat × Bool × Nat :=
  syncSubFlow oracle retryCountMax 0 true 0

/-- The two replication timestamps of `OpenvpnAdmin`. -/
structure SyncTimes where
  lastSyncTime : GoString
  lastSuccessfulSyncTime : GoString
  deriving Repr, DecidableEq

/-- `syncDataFromMaster` from the source: run the certificate sub-flow,
then the policy sub-flow, always update `lastSyncTime`, and update
`lastSuccessfulSyncTime` only when neither sub-flow is still failed. Both
sub-flows' (attempts, failed, extractions) are returned for inspection. -/
def syncDataFromMaster (certOracle ccdOracle : Nat → Bool) (now : GoString)
    (st : SyncTimes) : SyncTimes × (Nat × Bool × Nat) × (Nat × Bool × Nat) :=
  let c := runSubFlow certOracle
  let d := runSubFlow ccdOracle
  (⟨now, if !d.2.1 && !c.2.1 then now else st.lastSuccessfulSyncTime⟩, c, d)

/-- A well-formed registry line per the spec's round-trip contract: blank,
or flag exactly `V` with at least four further fields, or flag exactly `R`
with at least five. -/
def wfIndexLine (line : GoString) : Bool :=
  match goFields line with
  | [] => true
  | s0 :: rest =>
    if s0 = "V".data then decide (4 ≤ rest.length)
    else if s0 = "R".data then decide (5 ≤ rest.length)
    else false

/-- A registry text containing only well-formed `V`/`R` lines. -/
def wfIndexTxt (txt : GoString) : Bool :=
  (splitOnChar '\n' txt).all wfIndexLine

/-- A registry line the parser handles without panicking: blank,
unrecognized first token, or a recognized first token with enough fields. -/
def okIndexLine (line : GoString) : Bool :=
  match goFields line with
  | [] => true
  | s0 :: rest =>
    if ("V".data).isPrefixOf s0 then decide (4 ≤ rest.length)
    else if ("R".data).isPrefixOf s0 then decide (5 ≤ rest.length)
    else true

/-- A policy line the parser handles without panicking. -/
def okCcdLine (line : GoString) : Bool :=
  match goFields line with
  | [] => true
  | s0 :: rest =>
    if ("ifconfig-push".data).isPrefixOf s0 then decide (1 ≤ rest.length)
    else if ("push".data).isPrefixOf s0 then decide (3 ≤ rest.length)
    else true

/-- A registry line that is skipped: blank, or first token recognized by
neither the `V` nor the `R` branch. -/
def skipIndexLine (line : GoString) : Bool :=
  match goFields line with
  | [] => true
  | s0 :: _ => !(("V".data).isPrefixOf s0) && !(("R".data).isPrefixOf s0)

/-- A policy line that is skipped. -/
def skipCcdLine (line : GoString) : Bool :=
  match goFields line with
  | [] => true
  | s0 :: _ => !(("ifconfig-push".data).isPrefixOf s0) && !(("push".data).isPrefixOf s0)

/-- A field as `strings.Fields` produces it: nonempty and whitespace-free. -/
def GoodField (w : GoString) : Prop :=
  w ≠ [] ∧ ∀ c ∈ w, isWsp c = false

/-- The invariant of records the registry parser produces from well-formed
lines: the flag is exactly `V` (with an empty revocation date) or exactly
`R`, the remaining fields are proper `strings.Fields` output, and the
identity is derived from the distinguished name. -/
def GoodRec (r : IndexTxtLine) : Prop :=
  (r.Flag = "V".data ∧ r.RevocationDate = [] ∧ GoodField r.ExpirationDate ∧
    GoodField r.SerialNumber ∧ GoodField r.Filename ∧ GoodField r.DistinguishedName ∧
    r.Identity = afterFirstEq r.DistinguishedName) ∨
  (r.Flag = "R".data ∧ GoodField r.ExpirationDate ∧ GoodField r.RevocationDate ∧
    GoodField r.SerialNumber ∧ GoodField r.Filename ∧ GoodField r.DistinguishedName ∧
    r.Identity = afterFirstEq r.DistinguishedName)

/-- The rendered registry line without its trailing newline. -/
def renderIndexBody (r : IndexTxtLine) : GoString :=
  if r.Flag = "V".data then
    r.Flag ++ '\t' :: r.ExpirationDate ++ '\t' :: '\t' :: r.SerialNumber ++
      '\t' :: r.Filename ++ '\t' :: r.DistinguishedName
  else if r.Flag = "R".data then
    r.Flag ++ '\t' :: r.ExpirationDate ++ '\t' :: r.RevocationDate ++ '\t' :: r.SerialNumber ++
      '\t' :: r.Filename ++ '\t' :: r.DistinguishedName
  else []

/-- The view the spec promises for one non-`server` registry record. -/
def specClientView (activeClients : List ClientStatus) (fmtDate : GoString → GoString)
    (line : IndexTxtLine) : OpenvpnClient :=
  ⟨line.Identity,
   if line.Flag = "V".data then "Active".data
   else if line.Flag = "R".data then "Revoked".data
   else if line.Flag = "E".data then "Expired".data
   else [],
   fmtDate line.ExpirationDate,
   if line.Flag = "R".data then fmtDate line.RevocationDate else [],
   if ∃ c ∈ activeClients, c.CommonName = line.Identity then "Connected".data else []⟩

/-- Comma column `i` of a status-report row, empty when missing. -/
def rowField (row : GoString) (i : Nat) : GoString :=
  (splitOnChar ',' row).getD i []

/-- The session record a client-list row denotes: its first five columns,
everything else empty. -/
def mkClientStatus (row : GoString) : ClientStatus :=
  ⟨rowField row 0, rowField row 1, rowField row 2, rowField row 3, rowField row 4,
   [], [], [], []⟩

/-- Replace a record's virtual address and last-ref. -/
def setVL (c : ClientStatus) (va lr : GoString) : ClientStatus :=
  ⟨c.CommonName, c.RealAddress, c.BytesReceived, c.BytesSent, c.ConnectedSince,
   va, lr, c.ConnectedSinceFormatted, c.LastRefFormatted⟩

/-- Total version of the routing-table correlation: fill the first record
whose common name matches, leave the rest alone. -/
def fillFirstPure (cn va lr : GoString) : List ClientStatus → List ClientStatus
  | [] => []
  | c :: cs =>
    if c.CommonName = cn then setVL c va lr :: cs
    else c :: fillFirstPure cn va lr cs

/-- Apply every routing row in order, each filling the first matching
record. -/
def specFill (u : List ClientStatus) (rows : List GoString) : List ClientStatus :=
  rows.foldl (fun acc row => fillFirstPure (rowField row 1) (rowField row 0) (rowField row 3) acc) u

/-- Virtual-address/last-ref pair after all routing rows matching `cn`
have written it, starting from `p` (so the last matching row wins). -/
def lastMatchVL (cn : GoString) (rows : List GoString) (p : GoString × GoString) :
    GoString × GoString :=
  rows.foldl (fun q row => if rowField row 1 = cn then (rowField row 0, rowField row 3) else q) p

/-- The uniqueness-rejection message of `validateCcd`. -/
def msgAddrTaken (a : GoString) : GoString :=
  "ClientAddress \"".data ++ a ++ "\" already assigned to another user".data

/-- The syntax-rejection message of `validateCcd`. -/
def msgAddrNotIP (a : GoString) : GoString :=
  "ClientAddress \"".data ++ a ++ "\" not a valid IP address".data

/-- The containment-rejection message of `validateCcd`. -/
def msgAddrNotInNet (a : GoString) : GoString :=
  "ClientAddress \"".data ++ a ++ "\" not belongs to openvpn server network".data

/-- The route-address rejection message of `validateCcd`. -/
def msgRouteAddr (a : GoString) : GoString :=
  "CustomRoute.Address \"".data ++ a ++ "\" must be a valid IP address".data

/-- The route-mask rejection message of `validateCcd`. -/
def msgRouteMask (a : GoString) : GoString :=
  "CustomRoute.Mask \"".data ++ a ++ "\" must be a valid IP address".data

/-- The spec's acceptance condition for a policy entry: dynamic, or a
statically unique, syntactically valid address inside the subnet; and
every route's address and mask must parse as IPs. -/
def SpecCcdAccepted (entries : List Ccd) (subnet : CIDR) (ccd : Ccd) : Prop :=
  (ccd.ClientAddress = "dynamic".data ∨
    ((∀ e ∈ entries, e.User = ccd.User ∨ e.ClientAddress ≠ ccd.ClientAddress) ∧
     (parseIP ccd.ClientAddress).isSome = true ∧
     cidrContains subnet ((parseIP ccd.ClientAddress).getD 0) = true)) ∧
  ∀ r ∈ ccd.CustomRoutes,
    (parseIP r.Address).isSome = true ∧ (parseIP r.Mask).isSome = true

/-- The rejection reason the spec promises, checking uniqueness first, then
IP syntax, then subnet containment, then each route in order (address
before mask); empty when accepted. -/
def specCcdReason (entries : List Ccd) (subnet : CIDR) (ccd : Ccd) : GoString :=
  if ccd.ClientAddress ≠ "dynamic".data ∧
      ¬ (∀ e ∈ entries, e.User = ccd.User ∨ e.ClientAddress ≠ ccd.ClientAddress) then
    msgAddrTaken ccd.ClientAddress
  else if ccd.ClientAddress ≠ "dynamic".data ∧ (parseIP ccd.ClientAddress).isNone = true then
    msgAddrNotIP ccd.ClientAddress
  else if ccd.ClientAddress ≠ "dynamic".data ∧
      cidrContains subnet ((parseIP ccd.ClientAddress).getD 0) = false then
    msgAddrNotInNet ccd.ClientAddress
  else
    match ccd.CustomRoutes.find? (fun r => (parseIP r.Address).isNone || (parseIP r.Mask).isNone) with
    | some r => if (parseIP r.Address).isNone then msgRouteAddr r.Address else msgRouteMask r.Mask
    | none => []

/-- The route loop either accepts with an empty reason or rejects with a
nonempty one. -/
theorem validateRoutes_cases (rs : List CcdRoute) :
    ((validateRoutes rs).1 = true ∧ (validateRoutes rs).2 = []) ∨
    ((validateRoutes rs).1 = false ∧ (validateRoutes rs).2 ≠ []) := by
  induction rs with
  | nil => exact Or.inl ⟨rfl, rfl⟩
  | cons r rest ih =>
    by_cases ha : (parseIP r.Address).isNone
    · right
      constructor
      · simp [validateRoutes, ha]
      · simp [validateRoutes, ha, msgRouteAddr]
    · by_cases hm : (parseIP r.Mask).isNone
      · right
        constructor
        · simp [validateRoutes, ha, hm]
        · simp [validateRoutes, ha, hm, msgRouteMask]
      · rcases ih with ⟨h1, h2⟩ | ⟨h1, h2⟩
        · exact Or.inl ⟨by simp [validateRoutes, ha, hm, h1], by simp [validateRoutes, ha, hm, h2]⟩
        · exact Or.inr ⟨by simp [validateRoutes, ha, hm, h1], by simp [validateRoutes, ha, hm, h2]⟩

/-- `validateCcd` either accepts with an empty reason or rejects with a
nonempty one. -/
theorem validateCcd_cases (entries : List Ccd) (subnet : CIDR) (ccd : Ccd) :
    ((validateCcd entries subnet ccd).1 = true ∧ (validateCcd entries subnet ccd).2 = []) ∨
    ((validateCcd entries subnet ccd).1 = false ∧ (validateCcd entries subnet ccd).2 ≠ []) := by
  unfold validateCcd
  by_cases hd : ccd.ClientAddress = "dynamic".data
  · simpa [hd] using validateRoutes_cases ccd.CustomRoutes
  · by_cases hf : checkStaticAddressIsFree ccd.ClientAddress ccd.User entries
    · by_cases hip : (parseIP ccd.ClientAddress).isNone
      · right
        exact ⟨by simp [hd, hf, hip], by simp [hd, hf, hip]⟩
      · by_cases hc : cidrContains subnet ((parseIP ccd.ClientAddress).getD 0)
        · simpa [hd, hf, hip, hc] using validateRoutes_cases ccd.CustomRoutes
        · right
          exact ⟨by simp [hd, hf, hip, hc], by simp [hd, hf, hip, hc]⟩
    · right
      exact ⟨by simp [hd, hf], by simp [hd, hf]⟩

/-- Claim C6: a rejected policy entry makes `modifyCcd` fail with the
rejection reason and leaves the backing file with its prior content —
except that the pre-validation existence check has already created an
empty file when none existed, and that creation is not rolled back; an
accepted entry overwrites the file wholesale with the rendered entry and
reports success. -/
theorem modifyCcd_spec (entries : List Ccd) (subnet : CIDR) (file : Option GoString)
    (ccd : Ccd) :
    modifyCcd entries subnet file ccd =
      if (validateCcd entries subnet ccd).1 = true then
        (some (renderCcd ccd), true, "ccd updated successfully".data)
      else
        (some (file.getD []), false, (validateCcd entries subnet ccd).2) := by
  unfold modifyCcd
  rcases validateCcd_cases entries subnet ccd with ⟨h1, h2⟩ | ⟨h1, h2⟩
  · rcases hv : validateCcd entries subnet ccd with ⟨b, msg⟩
    rw [hv] at h1 h2
    simp only at h1 h2
    subst h1; subst h2
    simp
  · rcases hv : validateCcd entries subnet ccd with ⟨b, msg⟩
    rw [hv] at h1 h2
    simp only at h1 h2
    subst h1
    simp [h2]

/-- Claim C10: the per-user statistics lookup returns the first session
record whose common name equals the username and falls back to the
all-empty-strings zero record when none matches, so an absent user is
indistinguishable from an all-empty session record. -/
theorem getUserStatistic_spec (username : GoString) (cs : List ClientStatus) :
    getUserStatistic username cs =
      (cs.find? (fun c => c.CommonName == username)).getD emptyClientStatus ∧
    emptyClientStatus = ⟨[], [], [], [], [], [], [], [], []⟩ ∧
    getUserStatistic username [] = emptyClientStatus ∧
    getUserStatistic username [emptyClientStatus] = getUserStatistic username [] := by
  refine ⟨?_, rfl, rfl, ?_⟩
  · induction cs with
    | nil => rfl
    | cons c cs ih =>
      by_cases h : c.CommonName = username
      · rw [List.find?_cons_of_pos _ (by simp [h])]
        simp [getUserStatistic, h]
      · rw [List.find?_cons_of_neg _ (by simp [h])]
        simp [getUserStatistic, h, ih]
  · simp [getUserStatistic, emptyClientStatus]

/-- Claim C8 counterexample: a request with a mismatched token is answered
with locked (423), not forbidden (403), when the serving node's role is
slave — the slave check takes precedence over the token check. -/
theorem downloadHandlers_counterexample :
    "wrong".data ≠ "token".data ∧
    downloadCertsHandler "slave".data "wrong".data "token".data =
      (DownloadResponse.locked, false) ∧
    downloadCddHandler "slave".data "wrong".data "token".data =
      (DownloadResponse.locked, false) ∧
    DownloadResponse.locked ≠ DownloadResponse.forbidden := by
  refine ⟨by decide, by decide, by decide, by decide⟩

/-- Claim C8 as amended: a slave node answers locked (423) to every
download request and generates no archive; a non-slave node answers
forbidden (403) without generating an archive when the token mismatches,
and otherwise regenerates a fresh archive and serves it with a
Content-Disposition attachment header (200). -/
theorem downloadHandlers_spec (role token syncToken : GoString) :
    (role = "slave".data →
      downloadCertsHandler role token syncToken = (.locked, false) ∧
      downloadCddHandler role token syncToken = (.locked, false)) ∧
    (role ≠ "slave".data → token ≠ syncToken →
      downloadCertsHandler role token syncToken = (.forbidden, false) ∧
      downloadCddHandler role token syncToken = (.forbidden, false)) ∧
    (role ≠ "slave".data → token = syncToken →
      downloadCertsHandler role token syncToken =
        (.served ("attachment; filename=certs.tar.gz".data), true) ∧
      downloadCddHandler role token syncToken =
        (.served ("attachment; filename=ccd.tar.gz".data), true)) ∧
    httpStatusOf .locked = 423 ∧ httpStatusOf .forbidden = 403 ∧
    ∀ d, httpStatusOf (.served d) = 200 := by
  refine ⟨?_, ?_, ?_, rfl, rfl, fun d => rfl⟩
  · intro h
    constructor <;> simp [downloadCertsHandler, downloadCddHandler, h]
  · intro h ht
    constructor <;> simp [downloadCertsHandler, downloadCddHandler, h, ht]
  · intro h ht
    constructor <;> simp [downloadCertsHandler, downloadCddHandler, h, ht]

/-- Witness for the amended claim C8 at concrete inputs. -/
theorem downloadHandlers_spec_witness :
    downloadCertsHandler "master".data "t".data "t".data =
      (.served ("attachment; filename=certs.tar.gz".data), true) ∧
    downloadCddHandler "master".data "x".data "t".data = (.forbidden, false) ∧
    downloadCertsHandler "slave".data "t".data "t".data = (.locked, false) :=
  ⟨((downloadHandlers_spec "master".data "t".data "t".data).2.2.1
      (by decide) (by decide)).1,
   ((downloadHandlers_spec "master".data "x".data "t".data).2.1
      (by decide) (by decide)).2,
   ((downloadHandlers_spec "slave".data "t".data "t".data).1 (by decide)).1⟩

/-- A sub-flow whose failed bit is already clear stops immediately. -/
theorem syncSubFlow_done (o : Nat → Bool) (fuel r e : Nat) :
    syncSubFlow o fuel r false e = (r, false, e) := by
  cases fuel <;> simp [syncSubFlow]

/-- Closed form of one replication sub-flow over its three attempts. -/
theorem runSubFlow_eq (o : Nat → Bool) :
    runSubFlow o =
      if o 0 then (1, false, 1)
      else if o 1 then (2, false, 1)
      else if o 2 then (3, false, 1)
      else (3, true, 0) := by
  cases h0 : o 0 <;> cases h1 : o 1 <;> cases h2 : o 2 <;>
    simp [runSubFlow, retryCountMax, syncSubFlow, h0, h1, h2, syncSubFlow_done]

/-- Claim C7: each sub-flow makes at most 3 download attempts, stops at the
first success (extracting exactly then), makes exactly 3 attempts with no
extraction when every attempt fails; after both sub-flows the last-attempt
timestamp is updated unconditionally while the last-success timestamp is
updated exactly when both sub-flows succeeded in this cycle. -/
theorem syncDataFromMaster_spec (certOracle ccdOracle : Nat → Bool) (now : GoString)
    (st : SyncTimes) :
    (syncDataFromMaster certOracle ccdOracle now st).1.lastSyncTime = now ∧
    ((syncDataFromMaster certOracle ccdOracle now st).1.lastSuccessfulSyncTime =
      if (runSubFlow certOracle).2.1 = false ∧ (runSubFlow ccdOracle).2.1 = false then now
      else st.lastSuccessfulSyncTime) ∧
    (∀ o : Nat → Bool, (runSubFlow o).1 ≤ retryCountMax) ∧
    (∀ o : Nat → Bool, (runSubFlow o).2.2 = if (runSubFlow o).2.1 = true then 0 else 1) ∧
    (∀ o : Nat → Bool, ∀ i, i < retryCountMax → o i = true → (∀ j, j < i → o j = false) →
      runSubFlow o = (i + 1, false, 1)) ∧
    (∀ o : Nat → Bool, (∀ i, i < retryCountMax → o i = false) →
      runSubFlow o = (retryCountMax, true, 0)) := by
  refine ⟨rfl, ?_, ?_, ?_, ?_, ?_⟩
  · cases hc : (runSubFlow certOracle).2.1 <;> cases hd : (runSubFlow ccdOracle).2.1 <;>
      simp [syncDataFromMaster, hc, hd]
  · intro o
    rw [runSubFlow_eq]
    split_ifs <;> simp [retryCountMax]
  · intro o
    rw [runSubFlow_eq]
    split_ifs <;> simp_all
  · intro o i hi ht hprev
    simp only [retryCountMax] at hi
    interval_cases i
    · rw [runSubFlow_eq]
      simp [ht]
    · have h0 : o 0 = false := hprev 0 (by omega)
      rw [runSubFlow_eq]
      simp [ht, h0]
    · have h0 : o 0 = false := hprev 0 (by omega)
      have h1 : o 1 = false := hprev 1 (by omega)
      rw [runSubFlow_eq]
      simp [ht, h0, h1, retryCountMax]
  · intro o h
    have h0 : o 0 = false := h 0 (by decide)
    have h1 : o 1 = false := h 1 (by decide)
    have h2 : o 2 = false := h 2 (by decide)
    rw [runSubFlow_eq]
    simp [h0, h1, h2, retryCountMax]

/-- Witness for claim C7: three consecutive failures stop at exactly 3
attempts with no extraction; a success on the second attempt stops at 2;
the failing cycle updates the last-attempt time and leaves the
last-success time unchanged. -/
theorem syncDataFromMaster_spec_witness :
    runSubFlow (fun _ => false) = (retryCountMax, true, 0) ∧
    runSubFlow (fun i => decide (i = 1)) = (2, false, 1) ∧
    (syncDataFromMaster (fun _ => false) (fun _ => false) "t".data
      ⟨"a".data, "b".data⟩).1.lastSyncTime = "t".data ∧
    (syncDataFromMaster (fun _ => false) (fun _ => false) "t".data
      ⟨"a".data, "b".data⟩).1.lastSuccessfulSyncTime = "b".data := by
  have h := syncDataFromMaster_spec (fun _ => false) (fun _ => false) "t".data
    ⟨"a".data, "b".data⟩
  have hfail : runSubFlow (fun _ : Nat => false) = (retryCountMax, true, 0) :=
    h.2.2.2.2.2 (fun _ => false) (fun _ _ => rfl)
  refine ⟨hfail, ?_, h.1, ?_⟩
  · refine h.2.2.2.2.1 (fun i => decide (i = 1)) 1 (by decide) (by decide) ?_
    intro j hj
    have hj0 : j = 0 := by omega
    subst hj0
    rfl
  · have hb := h.2.1
    rw [if_neg] at hb
    · exact hb
    · rintro ⟨hx, -⟩
      rw [hfail] at hx
      simp at hx

/-- A list of length at least four starts with four cells. -/
theorem cons4_of_len {α : Type} (l : List α) (h : 4 ≤ l.length) :
    ∃ a b c d t, l = a :: b :: c :: d :: t := by
  rcases l with _ | ⟨a, l⟩
  · simp at h
  rcases l with _ | ⟨b, l⟩
  · simp at h
  rcases l with _ | ⟨c, l⟩
  · simp at h
  rcases l with _ | ⟨d, l⟩
  · simp at h
  exact ⟨a, b, c, d, l, rfl⟩

/-- A list of length at least five starts with five cells. -/
theorem cons5_of_len {α : Type} (l : List α) (h : 5 ≤ l.length) :
    ∃ a b c d e t, l = a :: b :: c :: d :: e :: t := by
  rcases cons4_of_len l (by omega) with ⟨a, b, c, d, t, rfl⟩
  rcases t with _ | ⟨e, t⟩
  · simp at h
  exact ⟨a, b, c, d, e, t, rfl⟩

/-- A registry line with enough fields for its recognized shape does not
panic. -/
theorem parseIndexLine_ok (l : GoString) (h : okIndexLine l = true) :
    ∃ o, parseIndexLine l = some o := by
  unfold okIndexLine at h
  unfold parseIndexLine
  cases hg : goFields l with
  | nil => exact ⟨none, rfl⟩
  | cons s0 rest =>
    rw [hg] at h
    by_cases hV : ("V".data).isPrefixOf s0 = true
    · simp only [hV, if_true] at h ⊢
      rcases cons4_of_len rest (of_decide_eq_true h) with ⟨e, s, f, d, t, rfl⟩
      exact ⟨_, rfl⟩
    · simp only [hV, if_false, Bool.false_eq_true] at h ⊢
      by_cases hR : ("R".data).isPrefixOf s0 = true
      · simp only [hR, if_true] at h ⊢
        rcases cons5_of_len rest (of_decide_eq_true h) with ⟨e, rv, s, f, d, t, rfl⟩
        exact ⟨_, rfl⟩
      · simp only [hR, if_false, Bool.false_eq_true] at h ⊢
        exact ⟨none, rfl⟩

/-- The registry loop succeeds on a text whose lines all have enough
fields. -/
theorem parseIndexLines_ok (ls : List GoString) (h : ∀ l ∈ ls, okIndexLine l = true) :
    ∃ rs, parseIndexLines ls = some rs := by
  induction ls with
  | nil => exact ⟨[], rfl⟩
  | cons l ls ih =>
    rcases parseIndexLine_ok l (h l (by simp)) with ⟨o, ho⟩
    rcases ih (fun x hx => h x (by simp [hx])) with ⟨rs, hrs⟩
    cases o with
    | none => exact ⟨rs, by simp [parseIndexLines, ho, hrs]⟩
    | some r => exact ⟨r :: rs, by simp [parseIndexLines, ho, hrs]⟩

/-- A blank or unrecognized registry line is parsed to a skip. -/
theorem parseIndexLine_skip (l : GoString) (h : skipIndexLine l = true) :
    parseIndexLine l = some none := by
  unfold skipIndexLine at h
  unfold parseIndexLine
  cases hg : goFields l with
  | nil => rfl
  | cons s0 rest =>
    rw [hg] at h
    simp only [Bool.and_eq_true, Bool.not_eq_true'] at h
    simp [h.1, h.2]

/-- Skipped registry lines contribute nothing, wherever they occur. -/
theorem parseIndexLines_skip (pre post : List GoString) (l : GoString)
    (h : skipIndexLine l = true) :
    parseIndexLines (pre ++ l :: post) = parseIndexLines (pre ++ post) := by
  induction pre with
  | nil => simp [parseIndexLines, parseIndexLine_skip l h]
  | cons p pre ih =>
    simp only [List.cons_append, parseIndexLines, List.append_eq]
    rw [ih]

/-- A policy line with enough fields for its recognized shape does not
panic, whatever the entry state. -/
theorem parseCcdLine_ok (l : GoString) (h : okCcdLine l = true) (ccd : Ccd) :
    ∃ c, parseCcdLine ccd l = some c := by
  unfold okCcdLine at h
  unfold parseCcdLine
  cases hg : goFields l with
  | nil => exact ⟨ccd, rfl⟩
  | cons s0 rest =>
    rw [hg] at h
    by_cases hI : ("ifconfig-push".data).isPrefixOf s0 = true
    · simp only [hI, if_true] at h ⊢
      rcases rest with _ | ⟨a, t⟩
      · simp at h
      · exact ⟨_, rfl⟩
    · simp only [hI, if_false, Bool.false_eq_true] at h ⊢
      by_cases hP : ("push".data).isPrefixOf s0 = true
      · simp only [hP, if_true] at h ⊢
        have h3 := of_decide_eq_true h
        rcases rest with _ | ⟨a, t⟩
        · simp at h3
        rcases t with _ | ⟨b, t⟩
        · simp at h3
        rcases t with _ | ⟨c, t⟩
        · simp at h3
        exact ⟨_, rfl⟩
      · simp only [hP, if_false, Bool.false_eq_true] at h ⊢
        exact ⟨ccd, rfl⟩

/-- The policy loop succeeds on a text whose lines all have enough fields. -/
theorem parseCcdLines_ok (ls : List GoString) (h : ∀ l ∈ ls, okCcdLine l = true) :
    ∀ ccd, ∃ c, parseCcdLines ccd ls = some c := by
  induction ls with
  | nil => exact fun ccd => ⟨ccd, rfl⟩
  | cons l ls ih =>
    intro ccd
    rcases parseCcdLine_ok l (h l (by simp)) ccd with ⟨c1, hc1⟩
    rcases ih (fun x hx => h x (by simp [hx])) c1 with ⟨c2, hc2⟩
    exact ⟨c2, by simp [parseCcdLines, hc1, hc2]⟩

/-- A blank or unrecognized policy line leaves the entry unchanged. -/
theorem parseCcdLine_skip (l : GoString) (h : skipCcdLine l = true) (ccd : Ccd) :
    parseCcdLine ccd l = some ccd := by
  unfold skipCcdLine at h
  unfold parseCcdLine
  cases hg : goFields l with
  | nil => rfl
  | cons s0 rest =>
    rw [hg] at h
    simp only [Bool.and_eq_true, Bool.not_eq_true'] at h
    simp [h.1, h.2]

/-- Skipped policy lines contribute nothing, wherever they occur. -/
theorem parseCcdLines_skip (pre post : List GoString) (l : GoString)
    (h : skipCcdLine l = true) :
    ∀ ccd, parseCcdLines ccd (pre ++ l :: post) = parseCcdLines ccd (pre ++ post) := by
  induction pre with
  | nil =>
    intro ccd
    simp [parseCcdLines, parseCcdLine_skip l h ccd]
  | cons p pre ih =>
    intro ccd
    simp only [List.cons_append, parseCcdLines]
    cases parseCcdLine ccd p with
    | none => rfl
    | some c => exact ih c

/-- Claim C2 counterexample: a registry line whose first token is
recognized (`V`) but which has no further fields, and a policy line whose
first token is recognized (`push`) but which has too few fields, both make
the parser index out of range (a Go panic, modelled as `none`) instead of
being silently skipped. -/
theorem parserTotality_counterexample :
    indexTxtParser "V".data = none ∧ parseCcd "alice".data "push".data = none := by
  constructor <;> decide

/-- Claim C2 as amended: both parsers never fail on blank lines or lines
whose first token is unrecognized — such lines are silently skipped and
contribute nothing — and they are total on inputs whose recognized lines
carry at least the fields their shape expects; but a line whose first
token is recognized with fewer fields than expected panics. -/
theorem parserTotality_spec :
    (∀ t : GoString, (splitOnChar '\n' t).all okIndexLine = true →
      ∃ rs, indexTxtParser t = some rs) ∧
    (∀ u t : GoString, (splitOnChar '\n' t).all okCcdLine = true →
      ∃ c, parseCcd u t = some c) ∧
    (∀ pre post : List GoString, ∀ l, skipIndexLine l = true →
      parseIndexLines (pre ++ l :: post) = parseIndexLines (pre ++ post)) ∧
    (∀ ccd : Ccd, ∀ pre post : List GoString, ∀ l, skipCcdLine l = true →
      parseCcdLines ccd (pre ++ l :: post) = parseCcdLines ccd (pre ++ post)) := by
  refine ⟨?_, ?_, ?_, ?_⟩
  · intro t ht
    exact parseIndexLines_ok _ (by simpa using List.all_eq_true.mp ht)
  · intro u t ht
    exact parseCcdLines_ok _ (by simpa using List.all_eq_true.mp ht) _
  · intro pre post l h
    exact parseIndexLines_skip pre post l h
  · intro ccd pre post l h
    exact parseCcdLines_skip pre post l h ccd

/-- Witness for the amended claim C2 at concrete inputs. -/
theorem parserTotality_spec_witness :
    (∃ rs, indexTxtParser "V\t1\t\t2\t3\t/CN=a\nnonsense here\n".data = some rs) ∧
    (∃ c, parseCcd "a".data "ifconfig-push 10.0.0.2 255.255.255.0\njunk\n".data = some c) ∧
    parseIndexLines ["V\t1\t\t2\t3\t/CN=a".data, "nonsense here".data] =
      parseIndexLines ["V\t1\t\t2\t3\t/CN=a".data] ∧
    parseCcdLines ⟨"a".data, "dynamic".data, []⟩ ["junk".data, "push \"route 10.0.0.0 255.0.0.0\"".data] =
      parseCcdLines ⟨"a".data, "dynamic".data, []⟩ ["push \"route 10.0.0.0 255.0.0.0\"".data] := by
  have h := parserTotality_spec
  refine ⟨h.1 _ (by decide), h.2.1 "a".data _ (by decide), ?_, ?_⟩
  · have := h.2.2.1 ["V\t1\t\t2\t3\t/CN=a".data] [] "nonsense here".data (by decide)
    simpa using this
  · have := h.2.2.2 ⟨"a".data, "dynamic".data, []⟩ []
      ["push \"route 10.0.0.0 255.0.0.0\"".data] "junk".data (by decide)
    simpa using this

/-- `dropWhile` passes over a block that wholly satisfies the predicate. -/
theorem dropWhile_append_of_all {α : Type} (p : α → Bool) (a b : List α)
    (h : ∀ c ∈ a, p c = true) :
    (a ++ b).dropWhile p = b.dropWhile p := by
  induction a with
  | nil => rfl
  | cons x a ih =>
    have hx : p x = true := h x (by simp)
    simp only [List.cons_append, List.dropWhile_cons, hx, if_true]
    exact ih (fun c hc => h c (by simp [hc]))

/-- On a string with an `=`, the extracted identity is exactly the suffix
after the first `=`. -/
theorem afterFirstEq_append (a b : GoString) (h : '=' ∉ a) :
    afterFirstEq (a ++ '=' :: b) = b := by
  unfold afterFirstEq
  rw [dropWhile_append_of_all _ a ('=' :: b) (fun c hc => by
    simp only [decide_eq_true_eq]
    intro hceq
    exact h (hceq ▸ hc))]
  simp [List.dropWhile_cons]

/-- Every record the line parser produces derives its identity from its
distinguished name. -/
theorem parseIndexLine_identity (l : GoString) (r : IndexTxtLine)
    (h : parseIndexLine l = some (some r)) :
    r.Identity = afterFirstEq r.DistinguishedName := by
  unfold parseIndexLine at h
  split at h
  · simp at h
  · split at h
    · split at h
      · simp only [Option.some.injEq] at h
        subst h
        rfl
      · simp at h
    · split at h
      · split at h
        · simp only [Option.some.injEq] at h
          subst h
          rfl
        · simp at h
      · simp at h

/-- Every record the registry parser produces derives its identity from
its distinguished name. -/
theorem parseIndexLines_identity (ls : List GoString) (rs : List IndexTxtLine)
    (h : parseIndexLines ls = some rs) :
    ∀ r ∈ rs, r.Identity = afterFirstEq r.DistinguishedName := by
  induction ls generalizing rs with
  | nil =>
    simp only [parseIndexLines, Option.some.injEq] at h
    subst h
    simp
  | cons l ls ih =>
    unfold parseIndexLines at h
    split at h
    · simp at h
    · exact ih rs h
    · rename_i r0 hr0
      split at h
      · simp at h
      · rename_i rs' hrs'
        simp only [Option.some.injEq] at h
        subst h
        intro r hr
        rcases List.mem_cons.mp hr with rfl | hmem
        · exact parseIndexLine_identity l r hr0
        · exact ih rs' hrs' r hmem

/-- Claim C9: a parsed record's identity is the substring of its
distinguished name following the first `=` (so `/CN=alice` yields
`alice`), and the single scenario line parses to exactly one Valid record
for alice with the stated expiration date. -/
theorem indexIdentity_spec :
    indexTxtParser "V\t250101000000Z\t\tABCD1234\tunknown\t/CN=alice\n".data =
      some [⟨"V".data, "250101000000Z".data, [], "ABCD1234".data, "unknown".data,
            "/CN=alice".data, "alice".data⟩] ∧
    ∀ t rs, indexTxtParser t = some rs → ∀ r ∈ rs, ∀ a b,
      r.DistinguishedName = a ++ '=' :: b → '=' ∉ a → r.Identity = b := by
  constructor
  · decide
  · intro t rs h r hr a b hdn ha
    have hid := parseIndexLines_identity _ _ h r hr
    rw [hid, hdn, afterFirstEq_append a b ha]

/-- Witness for claim C9: the scenario registry line yields the identity
`alice` through the general suffix-after-`=` law. -/
theorem indexIdentity_spec_witness :
    ∃ rs, indexTxtParser "V\t250101000000Z\t\tABCD1234\tunknown\t/CN=alice\n".data =
      some rs ∧ ∀ r ∈ rs, r.Identity = "alice".data := by
  have h := indexIdentity_spec
  refine ⟨_, h.1, ?_⟩
  intro r hr
  have hdn : r.DistinguishedName = "/CN".data ++ '=' :: "alice".data := by
    have hr' : r = ⟨"V".data, "250101000000Z".data, [], "ABCD1234".data, "unknown".data,
        "/CN=alice".data, "alice".data⟩ := by
      simpa using hr
    subst hr'
    decide
  exact h.2 _ _ h.1 r hr "/CN".data "alice".data hdn (by decide)

/-- The linear scan of `isUserConnected` is exactly existence of a session
with the given common name. -/
theorem isUserConnected_iff (u : GoString) (cs : List ClientStatus) :
    isUserConnected u cs = true ↔ ∃ c ∈ cs, c.CommonName = u := by
  induction cs with
  | nil => simp [isUserConnected]
  | cons c cs ih =>
    by_cases h : c.CommonName = u
    · simp [isUserConnected, h]
    · simp [isUserConnected, h, ih]

/-- The head of a cons's last element. -/
theorem getLast?_cons_eq {α : Type} : ∀ (xs : List α) (a : α),
    (a :: xs).getLast? = some (xs.getLast?.getD a)
  | [], a => rfl
  | b :: xs, a => by
    rw [List.getLast?_cons_cons, getLast?_cons_eq xs b]
    simp

/-- The view component of the `usersList` fold: one view per non-`server`
record, in order. -/
theorem usersList_foldl_views (cs : List ClientStatus) (fmt : GoString → GoString)
    (du : GoString → Int) (now : Int) :
    ∀ (lines : List IndexTxtLine) (u0 : List OpenvpnClient) (g0 : Option Int),
    (List.foldl (usersListStep cs fmt du now) (u0, g0) lines).1 =
      u0 ++ (lines.filter (fun l => l.Identity ≠ "server".data)).map (specClientView cs fmt) := by
  intro lines
  induction lines with
  | nil => intro u0 g0; simp
  | cons l ls ih =>
    intro u0 g0
    rw [List.foldl_cons]
    by_cases h : l.Identity = "server".data
    · have hstep : usersListStep cs fmt du now (u0, g0) l =
          (u0, some (expireDays du now l.ExpirationDate)) := by
        simp [usersListStep, h]
      rw [hstep, ih]
      simp [List.filter_cons, h]
    · have hstep : usersListStep cs fmt du now (u0, g0) l =
          (u0 ++ [specClientView cs fmt l], g0) := by
        by_cases hc : ∃ c ∈ cs, c.CommonName = l.Identity
        · have hc' : isUserConnected l.Identity cs = true := (isUserConnected_iff _ _).mpr hc
          simp [usersListStep, specClientView, h, hc, hc']
        · have hc' : isUserConnected l.Identity cs = false := by
            rw [Bool.eq_false_iff]
            intro hx
            exact hc ((isUserConnected_iff _ _).mp hx)
          simp [usersListStep, specClientView, h, hc, hc']
      rw [hstep, ih]
      simp [List.filter_cons, h]

/-- The gauge component of the `usersList` fold: the last `server` record
wins; with no `server` record the initial gauge is kept. -/
theorem usersList_foldl_gauge (cs : List ClientStatus) (fmt : GoString → GoString)
    (du : GoString → Int) (now : Int) :
    ∀ (lines : List IndexTxtLine) (u0 : List OpenvpnClient) (g0 : Option Int),
    (List.foldl (usersListStep cs fmt du now) (u0, g0) lines).2 =
      ((lines.filter (fun l => l.Identity = "server".data)).getLast?).elim g0
        (fun l => some (expireDays du now l.ExpirationDate)) := by
  intro lines
  induction lines with
  | nil => intro u0 g0; simp
  | cons l ls ih =>
    intro u0 g0
    rw [List.foldl_cons]
    by_cases h : l.Identity = "server".data
    · have hstep : usersListStep cs fmt du now (u0, g0) l =
          (u0, some (expireDays du now l.ExpirationDate)) := by
        simp [usersListStep, h]
      rw [hstep, ih]
      rw [List.filter_cons_of_pos (by simp [h])]
      rw [getLast?_cons_eq]
      cases hx : (ls.filter (fun l => l.Identity = "server".data)).getLast? with
      | none => simp [hx]
      | some x => simp [hx]
    · have h1 : (usersListStep cs fmt du now (u0, g0) l).2 = g0 := by
        simp [usersListStep, h]
      rcases hs : usersListStep cs fmt du now (u0, g0) l with ⟨u1, g1⟩
      rw [hs] at h1
      simp only at h1
      subst h1
      rw [ih]
      rw [List.filter_cons_of_neg (by simp [h])]

/-- Claim C3: the reconciliation pass builds exactly one view per
non-`server` record, in order, with the account status mirroring the flag
(`V` to Active, `R` to Revoked — also filling the revocation date — `E` to
Expired), and connection status Connected exactly when some active session
has the record's identity; the `server` record yields no view and only
feeds the server certificate-expiry gauge (last write wins). -/
theorem usersList_spec (lines : List IndexTxtLine) (cs : List ClientStatus)
    (fmt : GoString → GoString) (du : GoString → Int) (now : Int) :
    (usersList lines cs fmt du now).1 =
      (lines.filter (fun l => l.Identity ≠ "server".data)).map (specClientView cs fmt) ∧
    (usersList lines cs fmt du now).2 =
      ((lines.filter (fun l => l.Identity = "server".data)).getLast?).elim none
        (fun l => some (expireDays du now l.ExpirationDate)) := by
  constructor
  · simpa using usersList_foldl_views cs fmt du now lines [] none
  · simpa using usersList_foldl_gauge cs fmt du now lines [] none

/-- The shelled-out uniqueness scan agrees with the spec's
every-other-entry condition. -/
theorem checkStaticAddressIsFree_iff (a u : GoString) (entries : List Ccd) :
    checkStaticAddressIsFree a u entries = true ↔
      ∀ e ∈ entries, e.User = u ∨ e.ClientAddress ≠ a := by
  simp [checkStaticAddressIsFree, List.all_eq_true]

/-- The route loop accepts exactly when every route's address and mask
parse as IPs. -/
theorem validateRoutes_accept_iff (rs : List CcdRoute) :
    (validateRoutes rs).1 = true ↔
      ∀ r ∈ rs, (parseIP r.Address).isSome = true ∧ (parseIP r.Mask).isSome = true := by
  induction rs with
  | nil => simp [validateRoutes]
  | cons r rest ih =>
    cases hpa : parseIP r.Address with
    | none => simp [validateRoutes, hpa]
    | some v =>
      cases hpm : parseIP r.Mask with
      | none => simp [validateRoutes, hpa, hpm]
      | some w => simp [validateRoutes, hpa, hpm, ih]

/-- The route loop reports the first offending route, address before mask. -/
theorem validateRoutes_reason (rs : List CcdRoute) :
    (validateRoutes rs).2 =
      (match rs.find? (fun r => (parseIP r.Address).isNone || (parseIP r.Mask).isNone) with
       | some r => if (parseIP r.Address).isNone then msgRouteAddr r.Address else msgRouteMask r.Mask
       | none => []) := by
  induction rs with
  | nil => rfl
  | cons r rest ih =>
    cases hpa : parseIP r.Address with
    | none => simp [validateRoutes, List.find?, hpa, msgRouteAddr]
    | some v =>
      cases hpm : parseIP r.Mask with
      | none => simp [validateRoutes, List.find?, hpa, hpm, msgRouteMask]
      | some w => simp [validateRoutes, List.find?, hpa, hpm, ih]

/-- Claim C5: `validateCcd` accepts exactly when the address is dynamic or
(unique among other entries, IP-syntactic, inside the subnet) and every
route's address and mask parse as IPs (mask checked only for IP syntax);
the reported reason follows the order uniqueness, syntax, containment,
then each route in order; and the scenario entry for bob at 172.16.100.50
is accepted against 172.16.100.0/24 and rejected against 10.0.0.0/24. -/
theorem validateCcd_spec (entries : List Ccd) (subnet : CIDR) (ccd : Ccd) :
    ((validateCcd entries subnet ccd).1 = true ↔ SpecCcdAccepted entries subnet ccd) ∧
    (validateCcd entries subnet ccd).2 = specCcdReason entries subnet ccd ∧
    validateCcd [] ⟨ipv4 172 16 100 0, 24⟩ ⟨"bob".data, "172.16.100.50".data, []⟩ =
      (true, []) ∧
    validateCcd [] ⟨ipv4 10 0 0 0, 24⟩ ⟨"bob".data, "172.16.100.50".data, []⟩ =
      (false, msgAddrNotInNet "172.16.100.50".data) := by
  refine ⟨?_, ?_, by decide, by decide⟩
  · unfold validateCcd SpecCcdAccepted
    rw [← checkStaticAddressIsFree_iff ccd.ClientAddress ccd.User entries]
    by_cases hd : ccd.ClientAddress = "dynamic".data
    · simp [hd, validateRoutes_accept_iff]
    · by_cases hf : checkStaticAddressIsFree ccd.ClientAddress ccd.User entries = true
      · cases hip : parseIP ccd.ClientAddress with
        | none => simp [hd, hf, hip]
        | some v =>
          by_cases hc : cidrContains subnet v = true
          · simp [hd, hf, hip, hc, validateRoutes_accept_iff]
          · simp [hd, hf, hip, hc, validateRoutes_accept_iff]
      · have hf' : checkStaticAddressIsFree ccd.ClientAddress ccd.User entries = false :=
          Bool.eq_false_iff.mpr hf
        simp [hd, hf']
  · unfold validateCcd specCcdReason
    simp only [← checkStaticAddressIsFree_iff ccd.ClientAddress ccd.User entries]
    by_cases hd : ccd.ClientAddress = "dynamic".data
    · simp [hd, validateRoutes_reason]
    · by_cases hf : checkStaticAddressIsFree ccd.ClientAddress ccd.User entries = true
      · cases hip : parseIP ccd.ClientAddress with
        | none => simp [hd, hf, hip, msgAddrNotIP]
        | some v =>
          by_cases hc : cidrContains subnet v = true
          · simp [hd, hf, hip, hc, validateRoutes_reason]
          · simp [hd, hf, hip, hc, Bool.eq_false_iff.mpr hc, msgAddrNotInNet]
      · have hf' : checkStaticAddressIsFree ccd.ClientAddress ccd.User entries = false :=
          Bool.eq_false_iff.mpr hf
        simp [hd, hf', msgAddrTaken]

/-- Every word `fieldsAux` emits is nonempty and whitespace-free. -/
theorem fieldsAux_good (l : List Char) :
    ∀ acc, (∀ c ∈ acc, isWsp c = false) →
    ∀ w ∈ fieldsAux acc l, w ≠ [] ∧ ∀ c ∈ w, isWsp c = false := by
  induction l with
  | nil =>
    intro acc hacc w hw
    by_cases ha : acc.isEmpty
    · simp [fieldsAux, ha] at hw
    · simp [fieldsAux, ha] at hw
      subst hw
      refine ⟨by simpa [List.isEmpty_iff] using ha, ?_⟩
      intro c hc
      exact hacc c (List.mem_reverse.mp hc)
  | cons x l ih =>
    intro acc hacc w hw
    by_cases hx : isWsp x = true
    · by_cases ha : acc.isEmpty
      · rw [show fieldsAux acc (x :: l) = fieldsAux [] l by
          simp [fieldsAux, hx, ha]] at hw
        exact ih [] (by simp) w hw
      · rw [show fieldsAux acc (x :: l) = acc.reverse :: fieldsAux [] l by
          simp [fieldsAux, hx, ha]] at hw
        rcases List.mem_cons.mp hw with rfl | hmem
        · refine ⟨by simpa [List.isEmpty_iff] using ha, ?_⟩
          intro c hc
          exact hacc c (List.mem_reverse.mp hc)
        · exact ih [] (by simp) w hmem
    · rw [show fieldsAux acc (x :: l) = fieldsAux (x :: acc) l by
        simp [fieldsAux, hx]] at hw
      refine ih (x :: acc) ?_ w hw
      intro c hc
      rcases List.mem_cons.mp hc with rfl | hmem
      · exact Bool.eq_false_iff.mpr hx
      · exact hacc c hmem

/-- Every field of a tokenized line is nonempty and whitespace-free. -/
theorem goFields_good (l : List Char) : ∀ w ∈ goFields l, GoodField w := by
  intro w hw
  exact fieldsAux_good l [] (by simp) w hw

/-- `fieldsAux` swallows a whitespace-free block into its accumulator. -/
theorem fieldsAux_word (w : List Char) (hw : ∀ c ∈ w, isWsp c = false) :
    ∀ (acc l : List Char), fieldsAux acc (w ++ l) = fieldsAux (w.reverse ++ acc) l := by
  induction w with
  | nil => intro acc l; simp
  | cons x w ih =>
    intro acc l
    have hx : isWsp x = false := hw x (by simp)
    rw [List.cons_append, show fieldsAux acc (x :: (w ++ l)) = fieldsAux (x :: acc) (w ++ l) by
      simp [fieldsAux, hx]]
    rw [ih (fun c hc => hw c (by simp [hc])) (x :: acc) l]
    simp

/-- Leading whitespace is dropped. -/
theorem goFields_wsp_cons (c : Char) (l : List Char) (hc : isWsp c = true) :
    goFields (c :: l) = goFields l := by
  simp [goFields, fieldsAux, hc]

/-- A nonempty list is not empty for `isEmpty`. -/
theorem isEmpty_false_of_ne {α : Type} (l : List α) (h : l ≠ []) : l.isEmpty = false := by
  cases l with
  | nil => exact absurd rfl h
  | cons a l => rfl

/-- A whitespace-free word followed by a whitespace character tokenizes to
that word followed by the rest's tokens. -/
theorem goFields_word_cons (w : List Char) (c : Char) (l : List Char)
    (hw : GoodField w) (hc : isWsp c = true) :
    goFields (w ++ c :: l) = w :: goFields l := by
  unfold goFields
  rw [fieldsAux_word w hw.2 [] (c :: l)]
  have hne : (w.reverse ++ []).isEmpty = false :=
    isEmpty_false_of_ne _ (by simpa using hw.1)
  rw [show fieldsAux (w.reverse ++ []) (c :: l) =
      (w.reverse ++ []).reverse :: fieldsAux [] l by simp [fieldsAux, hc, hne, hw.1]]
  simp

/-- A whitespace-free word alone tokenizes to itself. -/
theorem goFields_word_nil (w : List Char) (hw : GoodField w) :
    goFields w = [w] := by
  unfold goFields
  have h := fieldsAux_word w hw.2 [] []
  rw [List.append_nil] at h
  rw [h]
  have hne : (w.reverse ++ []).isEmpty = false :=
    isEmpty_false_of_ne _ (by simpa using hw.1)
  simp [fieldsAux, hne, hw.1]

/-- `splitOnChar` never returns the empty list. -/
theorem splitOnChar_ne_nil (sep : Char) (l : List Char) : splitOnChar sep l ≠ [] := by
  cases l with
  | nil => simp [splitOnChar]
  | cons c cs =>
    unfold splitOnChar
    cases splitOnChar sep cs with
    | nil => simp
    | cons w ws =>
      by_cases h : c = sep <;> simp [h]

/-- Splitting a separator-free list yields that list alone. -/
theorem splitOnChar_not_mem (sep : Char) (l : List Char) (h : sep ∉ l) :
    splitOnChar sep l = [l] := by
  induction l with
  | nil => rfl
  | cons c cs ih =>
    have hc : ¬ c = sep := fun hcc => h (by simp [hcc])
    conv_lhs => rw [splitOnChar]
    rw [ih (fun hm => h (by simp [hm]))]
    simp [hc]

/-- Splitting around a first separator occurrence. -/
theorem splitOnChar_append (sep : Char) (a b : List Char) (h : sep ∉ a) :
    splitOnChar sep (a ++ sep :: b) = a :: splitOnChar sep b := by
  induction a with
  | nil =>
    simp only [List.nil_append]
    conv_lhs => rw [splitOnChar]
    cases hs : splitOnChar sep b with
    | nil => exact absurd hs (splitOnChar_ne_nil sep b)
    | cons w ws => simp [hs]
  | cons x a ih =>
    have hx : ¬ x = sep := fun hcc => h (by simp [hcc])
    simp only [List.cons_append]
    conv_lhs => rw [splitOnChar]
    rw [ih (fun hm => h (by simp [hm]))]
    simp [hx]

/-- A well-formed registry line parses without panicking, and any record
it produces satisfies the parser invariant. -/
theorem parseIndexLine_wf (l : GoString) (h : wfIndexLine l = true) :
    ∃ o, parseIndexLine l = some o ∧ ∀ r, o = some r → GoodRec r := by
  unfold wfIndexLine at h
  unfold parseIndexLine
  cases hg : goFields l with
  | nil => exact ⟨none, rfl, by simp⟩
  | cons s0 rest =>
    rw [hg] at h
    have hgood : ∀ w ∈ s0 :: rest, GoodField w := by
      rw [← hg]
      exact goFields_good l
    by_cases hV : s0 = "V".data
    · simp only [hV, if_true] at h
      rcases cons4_of_len rest (of_decide_eq_true h) with ⟨e, s, f, d, t, rfl⟩
      subst hV
      refine ⟨_, rfl, ?_⟩
      intro r hr
      simp only [Option.some.injEq] at hr
      subst hr
      exact Or.inl ⟨rfl, rfl, hgood e (by simp), hgood s (by simp), hgood f (by simp),
        hgood d (by simp), rfl⟩
    · simp only [hV, if_false] at h
      by_cases hR : s0 = "R".data
      · simp only [hR, if_true] at h
        rcases cons5_of_len rest (of_decide_eq_true h) with ⟨e, rv, s, f, d, t, rfl⟩
        subst hR
        refine ⟨_, rfl, ?_⟩
        intro r hr
        simp only [Option.some.injEq] at hr
        subst hr
        exact Or.inr ⟨rfl, hgood e (by simp), hgood rv (by simp), hgood s (by simp),
          hgood f (by simp), hgood d (by simp), rfl⟩
      · simp [hR] at h

/-- A well-formed registry text parses to records satisfying the parser
invariant. -/
theorem parseIndexLines_wf (ls : List GoString) (h : ∀ l ∈ ls, wfIndexLine l = true) :
    ∃ rs, parseIndexLines ls = some rs ∧ ∀ r ∈ rs, GoodRec r := by
  induction ls with
  | nil => exact ⟨[], rfl, by simp⟩
  | cons l ls ih =>
    rcases parseIndexLine_wf l (h l (by simp)) with ⟨o, ho, hgood⟩
    rcases ih (fun x hx => h x (by simp [hx])) with ⟨rs, hrs, hrsgood⟩
    cases o with
    | none => exact ⟨rs, by simp [parseIndexLines, ho, hrs], hrsgood⟩
    | some r =>
      refine ⟨r :: rs, by simp [parseIndexLines, ho, hrs], ?_⟩
      intro x hx
      rcases List.mem_cons.mp hx with rfl | hmem
      · exact hgood x rfl
      · exact hrsgood x hmem

/-- A good field contains no newline (newline is whitespace). -/
theorem goodField_newline (w : GoString) (hw : GoodField w) : '\n' ∉ w := by
  intro hm
  have := hw.2 '\n' hm
  simp [isWsp] at this

/-- The rendered line of an invariant record is its body plus a newline. -/
theorem renderIndexLine_eq_body (r : IndexTxtLine) (h : GoodRec r) :
    renderIndexLine r = renderIndexBody r ++ ['\n'] := by
  rcases h with ⟨hF, -⟩ | ⟨hF, -⟩ <;>
    simp [renderIndexLine, renderIndexBody, hF, List.append_assoc]

/-- The body of an invariant record contains no newline. -/
theorem renderIndexBody_newline (r : IndexTxtLine) (h : GoodRec r) :
    '\n' ∉ renderIndexBody r := by
  rcases h with ⟨hF, -, hE, hS, hFi, hD, -⟩ | ⟨hF, hE, hRv, hS, hFi, hD, -⟩
  · intro hm
    simp only [renderIndexBody, hF, if_true, if_pos] at hm
    simp [List.mem_append, List.mem_cons, goodField_newline _ hE, goodField_newline _ hS,
      goodField_newline _ hFi, goodField_newline _ hD] at hm
  · intro hm
    have hne : r.Flag ≠ "V".data := by
      rw [hF]
      decide
    simp only [renderIndexBody, hF, hne, if_false, if_true, if_pos, if_neg] at hm
    simp [List.mem_append, List.mem_cons, goodField_newline _ hE, goodField_newline _ hRv,
      goodField_newline _ hS, goodField_newline _ hFi, goodField_newline _ hD] at hm

/-- Reparsing the rendered body of an invariant record recovers the
record. -/
theorem parseIndexLine_body (r : IndexTxtLine) (h : GoodRec r) :
    parseIndexLine (renderIndexBody r) = some (some r) := by
  obtain ⟨Flag, Exp, Rev, Ser, Fn, DN, Id⟩ := r
  have ht : isWsp '\t' = true := by decide
  rcases h with ⟨hF, hRev, hE, hS, hFi, hD, hId⟩ | ⟨hF, hE, hRv, hS, hFi, hD, hId⟩
  · simp only at hF hRev hE hS hFi hD hId
    subst hF
    subst hRev
    subst hId
    have hVgf : GoodField ("V".data) := ⟨by decide, by decide⟩
    have hfields : goFields ("V".data ++ '\t' ::
        (Exp ++ '\t' :: '\t' :: (Ser ++ '\t' :: (Fn ++ '\t' :: DN)))) =
        ["V".data, Exp, Ser, Fn, DN] := by
      rw [goFields_word_cons _ '\t' _ hVgf ht, goFields_word_cons _ '\t' _ hE ht,
        goFields_wsp_cons '\t' _ ht, goFields_word_cons _ '\t' _ hS ht,
        goFields_word_cons _ '\t' _ hFi ht, goFields_word_nil _ hD]
    rw [show renderIndexBody ⟨"V".data, Exp, [], Ser, Fn, DN, afterFirstEq DN⟩ =
        "V".data ++ '\t' :: (Exp ++ '\t' :: '\t' :: (Ser ++ '\t' :: (Fn ++ '\t' :: DN))) by
      simp [renderIndexBody]]
    unfold parseIndexLine
    rw [hfields]
    rfl
  · simp only at hF hE hRv hS hFi hD hId
    subst hF
    subst hId
    have hRgf : GoodField ("R".data) := ⟨by decide, by decide⟩
    have hfields : goFields ("R".data ++ '\t' ::
        (Exp ++ '\t' :: (Rev ++ '\t' :: (Ser ++ '\t' :: (Fn ++ '\t' :: DN))))) =
        ["R".data, Exp, Rev, Ser, Fn, DN] := by
      rw [goFields_word_cons _ '\t' _ hRgf ht, goFields_word_cons _ '\t' _ hE ht,
        goFields_word_cons _ '\t' _ hRv ht, goFields_word_cons _ '\t' _ hS ht,
        goFields_word_cons _ '\t' _ hFi ht, goFields_word_nil _ hD]
    rw [show renderIndexBody ⟨"R".data, Exp, Rev, Ser, Fn, DN, afterFirstEq DN⟩ =
        "R".data ++ '\t' :: (Exp ++ '\t' :: (Rev ++ '\t' :: (Ser ++ '\t' :: (Fn ++ '\t' :: DN)))) by
      simp [renderIndexBody]]
    unfold parseIndexLine
    rw [hfields]
    rfl

/-- Splitting the rendered registry on newlines gives one body per record
plus a final empty line. -/
theorem splitOnChar_render (rs : List IndexTxtLine) (h : ∀ r ∈ rs, GoodRec r) :
    splitOnChar '\n' (renderIndexTxt rs) = (rs.map renderIndexBody) ++ [[]] := by
  induction rs with
  | nil => rfl
  | cons r rs ih =>
    have hr := h r (by simp)
    have hrest : ∀ x ∈ rs, GoodRec x := fun x hx => h x (by simp [hx])
    show splitOnChar '\n' (renderIndexLine r ++ renderIndexTxt rs) = _
    rw [renderIndexLine_eq_body r hr, List.append_assoc]
    rw [show (['\n'] : List Char) ++ renderIndexTxt rs = '\n' :: renderIndexTxt rs from rfl]
    rw [splitOnChar_append '\n' _ _ (renderIndexBody_newline r hr)]
    rw [ih hrest]
    simp

/-- Parsing the rendered bodies recovers the records. -/
theorem parseIndexLines_bodies (rs : List IndexTxtLine) (h : ∀ r ∈ rs, GoodRec r) :
    parseIndexLines ((rs.map renderIndexBody) ++ [[]]) = some rs := by
  induction rs with
  | nil => rfl
  | cons r rs ih =>
    have hr := h r (by simp)
    have hrest : ∀ x ∈ rs, GoodRec x := fun x hx => h x (by simp [hx])
    simp only [List.map_cons, List.cons_append]
    simp [parseIndexLines, parseIndexLine_body r hr, ih hrest]

/-- Claim C1: on a registry text made only of well-formed `V`/`R` lines
(and blank lines), parsing succeeds and rendering the parse re-parses to
exactly the same record sequence — every field including flag, expiration,
revocation, serial, filename and distinguished name — whatever whitespace
widths the original text used. -/
theorem indexTxt_roundTrip (t : GoString) (h : wfIndexTxt t = true) :
    ∃ rs, indexTxtParser t = some rs ∧ indexTxtParser (renderIndexTxt rs) = some rs := by
  have hall : ∀ l ∈ splitOnChar '\n' t, wfIndexLine l = true := by
    simpa [wfIndexTxt, List.all_eq_true] using h
  obtain ⟨rs, h1, h2⟩ := parseIndexLines_wf (splitOnChar '\n' t) hall
  refine ⟨rs, h1, ?_⟩
  unfold indexTxtParser
  rw [splitOnChar_render rs h2, parseIndexLines_bodies rs h2]

/-- Witness for claim C1: a two-record registry, one line tab-separated
and one with irregular space runs, parses and survives the round trip. -/
theorem indexTxt_roundTrip_witness :
    ∃ rs, indexTxtParser
        "V\t250101000000Z\t\tAB12\tunknown\t/CN=alice\nR  260101000000Z 240701000000Z  CD34 unknown /CN=bob\n".data =
        some rs ∧
      indexTxtParser (renderIndexTxt rs) = some rs :=
  indexTxt_roundTrip _ (by decide)

/-- Filling does not change a record's common name. -/
theorem setVL_cn (c : ClientStatus) (va lr : GoString) :
    (setVL c va lr).CommonName = c.CommonName :=
  rfl

/-- Refilling overwrites the previous fill. -/
theorem setVL_setVL (c : ClientStatus) (a b x y : GoString) :
    setVL (setVL c a b) x y = setVL c x y :=
  rfl

/-- Filling with a record's own values is the identity. -/
theorem setVL_self (c : ClientStatus) :
    setVL c c.VirtualAddress c.LastRef = c := by
  cases c
  rfl

/-- Filling sets the virtual address. -/
theorem setVL_va (c : ClientStatus) (va lr : GoString) :
    (setVL c va lr).VirtualAddress = va :=
  rfl

/-- Filling sets the last-ref. -/
theorem setVL_lr (c : ClientStatus) (va lr : GoString) :
    (setVL c va lr).LastRef = lr :=
  rfl

/-- Filling preserves length. -/
theorem fillFirstPure_length (cn va lr : GoString) :
    ∀ u : List ClientStatus, (fillFirstPure cn va lr u).length = u.length := by
  intro u
  induction u with
  | nil => rfl
  | cons c cs ih =>
    by_cases hc : c.CommonName = cn
    · simp [fillFirstPure, hc]
    · simp [fillFirstPure, hc, ih]

/-- Filling preserves the sequence of common names. -/
theorem fillFirstPure_map_cn (cn va lr : GoString) :
    ∀ u : List ClientStatus,
    (fillFirstPure cn va lr u).map ClientStatus.CommonName = u.map ClientStatus.CommonName := by
  intro u
  induction u with
  | nil => rfl
  | cons c cs ih =>
    by_cases hc : c.CommonName = cn
    · simp [fillFirstPure, hc, setVL_cn]
    · simp [fillFirstPure, hc, ih]

/-- Pointwise effect of one fill: the entry at `i` is filled exactly when
its common name matches and no earlier entry shares that name. -/
theorem fillFirstPure_getD (cn va lr : GoString) :
    ∀ (u : List ClientStatus) (i : Nat), i < u.length →
    (fillFirstPure cn va lr u).getD i emptyClientStatus =
      (if (u.getD i emptyClientStatus).CommonName = cn ∧
          (∀ d ∈ u.take i, d.CommonName ≠ cn) then
        setVL (u.getD i emptyClientStatus) va lr
      else u.getD i emptyClientStatus) := by
  intro u
  induction u with
  | nil => intro i hi; simp at hi
  | cons c cs ih =>
    intro i hi
    by_cases hc : c.CommonName = cn
    · rw [show fillFirstPure cn va lr (c :: cs) = setVL c va lr :: cs by
        simp [fillFirstPure, hc]]
      cases i with
      | zero => simp [hc]
      | succ i =>
        rw [if_neg]
        · simp
        · rintro ⟨-, hall⟩
          exact hall c (by simp [List.take_succ_cons]) hc
    · rw [show fillFirstPure cn va lr (c :: cs) = c :: fillFirstPure cn va lr cs by
        simp [fillFirstPure, hc]]
      cases i with
      | zero => simp [hc]
      | succ i =>
        have hi' : i < cs.length := by simpa using hi
        simp only [List.getD_cons_succ]
        rw [ih i hi']
        simp [List.take_succ_cons, List.forall_mem_cons, hc]

/-- A take-prefix condition on common names transfers along equal
name sequences. -/
theorem forall_take_cn_iff (u v : List ClientStatus)
    (hcn : u.map ClientStatus.CommonName = v.map ClientStatus.CommonName)
    (i : Nat) (x : GoString) :
    (∀ d ∈ u.take i, d.CommonName ≠ x) ↔ (∀ d ∈ v.take i, d.CommonName ≠ x) := by
  constructor <;> intro h d hd
  · have hm : d.CommonName ∈ (v.take i).map ClientStatus.CommonName :=
      List.mem_map_of_mem _ hd
    rw [List.map_take, ← hcn, ← List.map_take] at hm
    rcases List.mem_map.mp hm with ⟨d', hd', hdd⟩
    rw [← hdd]
    exact h d' hd'
  · have hm : d.CommonName ∈ (u.take i).map ClientStatus.CommonName :=
      List.mem_map_of_mem _ hd
    rw [List.map_take, hcn, ← List.map_take] at hm
    rcases List.mem_map.mp hm with ⟨d', hd', hdd⟩
    rw [← hdd]
    exact h d' hd'

/-- When no routing row matches, the fill pair stays at its start value. -/
theorem lastMatchVL_no_match (cn : GoString) :
    ∀ (rows : List GoString) (p : GoString × GoString),
    (∀ r ∈ rows, rowField r 1 ≠ cn) → lastMatchVL cn rows p = p := by
  intro rows
  induction rows with
  | nil => intro p h; rfl
  | cons row rows ih =>
    intro p h
    have h0 : ¬ rowField row 1 = cn := h row (by simp)
    show lastMatchVL cn rows (if rowField row 1 = cn then _ else p) = p
    rw [if_neg h0]
    exact ih p (fun r hr => h r (by simp [hr]))

/-- Applying the routing rows preserves length. -/
theorem specFill_length (rows : List GoString) :
    ∀ u : List ClientStatus, (specFill u rows).length = u.length := by
  induction rows with
  | nil => intro u; rfl
  | cons row rows ih =>
    intro u
    show (specFill (fillFirstPure _ _ _ u) rows).length = u.length
    rw [ih, fillFirstPure_length]

/-- One routing row folds into the fill pair. -/
theorem lastMatchVL_cons (cn : GoString) (row : GoString) (rows : List GoString)
    (p : GoString × GoString) :
    lastMatchVL cn (row :: rows) p =
      lastMatchVL cn rows
        (if rowField row 1 = cn then (rowField row 0, rowField row 3) else p) :=
  rfl

/-- Pointwise effect of applying all routing rows: the first record of
each common name receives the last matching row's columns 0 and 3,
starting from its current pair; later duplicates are untouched. -/
theorem specFill_getD :
    ∀ (rows : List GoString) (u : List ClientStatus) (i : Nat), i < u.length →
    (specFill u rows).getD i emptyClientStatus =
      (if ∀ d ∈ u.take i, d.CommonName ≠ (u.getD i emptyClientStatus).CommonName then
        setVL (u.getD i emptyClientStatus)
          (lastMatchVL (u.getD i emptyClientStatus).CommonName rows
            ((u.getD i emptyClientStatus).VirtualAddress,
             (u.getD i emptyClientStatus).LastRef)).1
          (lastMatchVL (u.getD i emptyClientStatus).CommonName rows
            ((u.getD i emptyClientStatus).VirtualAddress,
             (u.getD i emptyClientStatus).LastRef)).2
      else u.getD i emptyClientStatus) := by
  intro rows
  induction rows with
  | nil =>
    intro u i hi
    show u.getD i emptyClientStatus = _
    rw [show lastMatchVL (u.getD i emptyClientStatus).CommonName []
        ((u.getD i emptyClientStatus).VirtualAddress,
         (u.getD i emptyClientStatus).LastRef) =
        ((u.getD i emptyClientStatus).VirtualAddress,
         (u.getD i emptyClientStatus).LastRef) from rfl]
    rw [setVL_self, ite_self]
  | cons row rows ih =>
    intro u i hi
    have hlen : i < (fillFirstPure (rowField row 1) (rowField row 0) (rowField row 3) u).length := by
      rw [fillFirstPure_length]
      exact hi
    show (specFill (fillFirstPure (rowField row 1) (rowField row 0) (rowField row 3) u) rows).getD
        i emptyClientStatus = _
    rw [ih _ i hlen]
    have hfill := fillFirstPure_getD (rowField row 1) (rowField row 0) (rowField row 3) u i hi
    have hmapcn := fillFirstPure_map_cn (rowField row 1) (rowField row 0) (rowField row 3) u
    have htake := forall_take_cn_iff _ u hmapcn i
    by_cases hfirst : ∀ d ∈ u.take i, d.CommonName ≠ (u.getD i emptyClientStatus).CommonName
    · by_cases hmatch : (u.getD i emptyClientStatus).CommonName = rowField row 1
      · rw [if_pos ⟨hmatch, fun d hd hx => hfirst d hd (hx.trans hmatch.symm)⟩] at hfill
        rw [hfill]
        simp only [setVL_cn, setVL_va, setVL_lr, setVL_setVL]
        rw [if_pos ((htake _).mpr hfirst), if_pos hfirst, lastMatchVL_cons,
          if_pos hmatch.symm]
      · rw [if_neg (fun hx => hmatch hx.1)] at hfill
        rw [hfill]
        rw [if_pos ((htake _).mpr hfirst), if_pos hfirst, lastMatchVL_cons,
          if_neg (fun hx => hmatch hx.symm)]
    · have hnf : ¬ ((u.getD i emptyClientStatus).CommonName = rowField row 1 ∧
          ∀ d ∈ u.take i, d.CommonName ≠ rowField row 1) :=
        fun hx => hfirst (fun d hd hy => hx.2 d hd (hy.trans hx.1))
      rw [if_neg hnf] at hfill
      rw [hfill]
      rw [if_neg (fun hx => hfirst ((htake _).mp hx)), if_neg hfirst]

/-- A client row leaves the filled columns empty. -/
theorem mkClientStatus_va (row : GoString) : (mkClientStatus row).VirtualAddress = [] :=
  rfl

/-- A client row leaves the last-ref empty. -/
theorem mkClientStatus_lr (row : GoString) : (mkClientStatus row).LastRef = [] :=
  rfl

/-- On a row with columns 0, 1 and 3 present, the routing scan is the pure
first-match fill. -/
theorem routeScan_eq_fill (parts : List GoString) (p0 p1 p3 : GoString)
    (h0 : parts[0]? = some p0) (h1 : parts[1]? = some p1) (h3 : parts[3]? = some p3) :
    ∀ u, routeScan parts u = some (fillFirstPure p1 p0 p3 u) := by
  intro u
  induction u with
  | nil => rfl
  | cons c cs ih =>
    by_cases hc : c.CommonName = p1
    · simp [routeScan, fillFirstPure, h0, h1, h3, hc, setVL]
    · simp [routeScan, fillFirstPure, h0, h1, h3, hc, ih]

/-- Before any section header, non-marker lines are skipped. -/
theorem mgmtLoop_skip_pre :
    ∀ (pre rest : List GoString) (u : List ClientStatus),
    (∀ l ∈ pre, l ≠ clientListHdr ∧ l ≠ routingTableMark ∧ l ≠ routeHdr ∧
      l ≠ globalStatsMark) →
    mgmtLoop (pre ++ rest) u false false = mgmtLoop rest u false false := by
  intro pre
  induction pre with
  | nil => intro rest u h; rfl
  | cons l pre ih =>
    intro rest u h
    have hl := h l (by simp)
    show mgmtLoop (l :: (pre ++ rest)) u false false = _
    rw [show mgmtLoop (l :: (pre ++ rest)) u false false =
        mgmtLoop (pre ++ rest) u false false by
      simp [mgmtLoop, hl.1, hl.2.1, hl.2.2.1, hl.2.2.2]]
    exact ih rest u (fun x hx => h x (by simp [hx]))

/-- In the client-list section, each row appends its record in order. -/
theorem mgmtLoop_clients :
    ∀ (crows rest : List GoString) (u : List ClientStatus),
    (∀ row ∈ crows, (row ≠ clientListHdr ∧ row ≠ routingTableMark ∧ row ≠ routeHdr ∧
      row ≠ globalStatsMark) ∧ 5 ≤ (splitOnChar ',' row).length) →
    mgmtLoop (crows ++ rest) u true false =
      mgmtLoop rest (u ++ crows.map mkClientStatus) true false := by
  intro crows
  induction crows with
  | nil => intro rest u h; simp
  | cons row crows ih =>
    intro rest u h
    obtain ⟨hm, hlen⟩ := h row (by simp)
    rcases cons5_of_len _ hlen with ⟨c0, c1, c2, c3, c4, t, hparts⟩
    have hproc : processClientLine u row = some (u ++ [mkClientStatus row]) := by
      unfold processClientLine
      rw [hparts]
      simp [mkClientStatus, rowField, hparts]
    show mgmtLoop (row :: (crows ++ rest)) u true false = _
    rw [show mgmtLoop (row :: (crows ++ rest)) u true false =
        mgmtLoop (crows ++ rest) (u ++ [mkClientStatus row]) true false by
      simp [mgmtLoop, hm.1, hm.2.1, hm.2.2.1, hm.2.2.2, hproc]]
    rw [ih rest (u ++ [mkClientStatus row]) (fun x hx => h x (by simp [hx]))]
    simp

/-- In the routing-table section, the rows apply as first-match fills. -/
theorem mgmtLoop_routes :
    ∀ (rrows rest : List GoString) (u : List ClientStatus),
    (∀ row ∈ rrows, (row ≠ clientListHdr ∧ row ≠ routingTableMark ∧ row ≠ routeHdr ∧
      row ≠ globalStatsMark) ∧ 4 ≤ (splitOnChar ',' row).length) →
    mgmtLoop (rrows ++ rest) u false true =
      mgmtLoop rest (specFill u rrows) false true := by
  intro rrows
  induction rrows with
  | nil => intro rest u h; rfl
  | cons row rrows ih =>
    intro rest u h
    obtain ⟨hm, hlen⟩ := h row (by simp)
    rcases cons4_of_len _ hlen with ⟨p0, p1, p2, p3, t, hparts⟩
    have h0 : (splitOnChar ',' row)[0]? = some p0 := by rw [hparts]; simp
    have h1 : (splitOnChar ',' row)[1]? = some p1 := by rw [hparts]; simp
    have h3 : (splitOnChar ',' row)[3]? = some p3 := by rw [hparts]; simp
    have hrf0 : rowField row 0 = p0 := by simp [rowField, hparts]
    have hrf1 : rowField row 1 = p1 := by simp [rowField, hparts]
    have hrf3 : rowField row 3 = p3 := by simp [rowField, hparts]
    have hscan := routeScan_eq_fill _ p0 p1 p3 h0 h1 h3 u
    show mgmtLoop (row :: (rrows ++ rest)) u false true = _
    rw [show mgmtLoop (row :: (rrows ++ rest)) u false true =
        mgmtLoop (rrows ++ rest) (fillFirstPure p1 p0 p3 u) false true by
      simp [mgmtLoop, hm.1, hm.2.1, hm.2.2.1, hm.2.2.2, hscan]]
    rw [ih rest _ (fun x hx => h x (by simp [hx]))]
    rw [show specFill u (row :: rrows) =
        specFill (fillFirstPure (rowField row 1) (rowField row 0) (rowField row 3) u) rrows
        from rfl]
    rw [hrf0, hrf1, hrf3]

/-- Indexing a mapped client-row list. -/
theorem getD_map_mk :
    ∀ (crows : List GoString) (i : Nat), i < crows.length →
    (crows.map mkClientStatus).getD i emptyClientStatus = mkClientStatus (crows.getD i []) := by
  intro crows
  induction crows with
  | nil => intro i hi; simp at hi
  | cons r crows ih =>
    intro i hi
    cases i with
    | zero => simp
    | succ i => simpa using ih i (by simpa using hi)

/-- Claim C4: on a well-formed status report — any prologue, the
client-list header, N client rows, `ROUTING TABLE`, the routing header, M
routing rows, `GLOBAL STATS`, then anything — the parser returns exactly N
records, one per client row in order; the first record of each common name
carries the last matching routing row's virtual-address and last-ref
columns, later records with a duplicated common name stay unfilled, a
record with no matching routing row stays exactly its client row, and
everything after `GLOBAL STATS` is ignored. -/
theorem mgmtConnectedUsersParser_spec (text : GoString)
    (pre crows rrows post : List GoString)
    (hsplit : scannerLines text =
      pre ++ clientListHdr :: (crows ++ routingTableMark :: routeHdr ::
        (rrows ++ globalStatsMark :: post)))
    (hpre : ∀ l ∈ pre, l ≠ clientListHdr ∧ l ≠ routingTableMark ∧ l ≠ routeHdr ∧
      l ≠ globalStatsMark)
    (hc : ∀ row ∈ crows, (row ≠ clientListHdr ∧ row ≠ routingTableMark ∧ row ≠ routeHdr ∧
      row ≠ globalStatsMark) ∧ 5 ≤ (splitOnChar ',' row).length)
    (hr : ∀ row ∈ rrows, (row ≠ clientListHdr ∧ row ≠ routingTableMark ∧ row ≠ routeHdr ∧
      row ≠ globalStatsMark) ∧ 4 ≤ (splitOnChar ',' row).length) :
    mgmtConnectedUsersParser text = some (specFill (crows.map mkClientStatus) rrows) ∧
    (specFill (crows.map mkClientStatus) rrows).length = crows.length ∧
    (∀ i, i < crows.length →
      (specFill (crows.map mkClientStatus) rrows).getD i emptyClientStatus =
        (if ∀ d ∈ (crows.map mkClientStatus).take i,
            d.CommonName ≠ (mkClientStatus (crows.getD i [])).CommonName then
          setVL (mkClientStatus (crows.getD i []))
            (lastMatchVL (mkClientStatus (crows.getD i [])).CommonName rrows ([], [])).1
            (lastMatchVL (mkClientStatus (crows.getD i [])).CommonName rrows ([], [])).2
        else mkClientStatus (crows.getD i []))) ∧
    (∀ i, i < crows.length →
      (∀ r ∈ rrows, rowField r 1 ≠ (mkClientStatus (crows.getD i [])).CommonName) →
      (specFill (crows.map mkClientStatus) rrows).getD i emptyClientStatus =
        mkClientStatus (crows.getD i [])) := by
  have d21 : routingTableMark ≠ clientListHdr := by decide
  have d31 : routeHdr ≠ clientListHdr := by decide
  have d32 : routeHdr ≠ routingTableMark := by decide
  have d41 : globalStatsMark ≠ clientListHdr := by decide
  have d42 : globalStatsMark ≠ routingTableMark := by decide
  have d43 : globalStatsMark ≠ routeHdr := by decide
  refine ⟨?_, ?_, ?_, ?_⟩
  · unfold mgmtConnectedUsersParser
    rw [hsplit]
    rw [mgmtLoop_skip_pre pre _ [] hpre]
    rw [show mgmtLoop (clientListHdr :: (crows ++ routingTableMark :: routeHdr ::
        (rrows ++ globalStatsMark :: post))) [] false false =
        mgmtLoop (crows ++ routingTableMark :: routeHdr ::
          (rrows ++ globalStatsMark :: post)) [] true false by
      simp [mgmtLoop]]
    rw [mgmtLoop_clients crows _ [] hc]
    rw [show mgmtLoop (routingTableMark :: routeHdr :: (rrows ++ globalStatsMark :: post))
        ([] ++ crows.map mkClientStatus) true false =
        mgmtLoop (rrows ++ globalStatsMark :: post)
          ([] ++ crows.map mkClientStatus) false true by
      simp [mgmtLoop, d21, d31, d32]]
    rw [mgmtLoop_routes rrows _ _ hr]
    rw [show mgmtLoop (globalStatsMark :: post)
        (specFill ([] ++ crows.map mkClientStatus) rrows) false true =
        some (specFill ([] ++ crows.map mkClientStatus) rrows) by
      simp [mgmtLoop, d41, d42, d43]]
    simp
  · rw [specFill_length]
    simp
  · intro i hi
    have himap : i < (crows.map mkClientStatus).length := by simpa using hi
    rw [specFill_getD rrows _ i himap, getD_map_mk crows i hi]
    simp only [mkClientStatus_va, mkClientStatus_lr]
  · intro i hi hnomatch
    have himap : i < (crows.map mkClientStatus).length := by simpa using hi
    rw [specFill_getD rrows _ i himap, getD_map_mk crows i hi]
    simp only [mkClientStatus_va, mkClientStatus_lr]
    by_cases hfirst : ∀ d ∈ (crows.map mkClientStatus).take i,
        d.CommonName ≠ (mkClientStatus (crows.getD i [])).CommonName
    · rw [if_pos hfirst, lastMatchVL_no_match _ rrows _ hnomatch]
      exact setVL_self _
    · rw [if_neg hfirst]

set_option maxRecDepth 100000 in
/-- Witness for claim C4: a report with two alice rows and one bob row and
a single routing row for alice fills only the first alice record; the
trailing stats lines are ignored. -/
theorem mgmtConnectedUsersParser_spec_witness :
    mgmtConnectedUsersParser
      ("OpenVPN CLIENT LIST\nUpdated,Mon Jan 2\nCommon Name,Real Address,Bytes Received,Bytes Sent,Connected Since\nalice,10.0.0.5,100,200,t1\nalice,10.0.0.6,1,2,t2\nbob,10.0.0.7,3,4,t3\nROUTING TABLE\nVirtual Address,Common Name,Real Address,Last Ref\n172.16.100.10,alice,10.0.0.5,t4\nGLOBAL STATS\nMax bcast queue,0\nEND\n".data) =
      some [⟨"alice".data, "10.0.0.5".data, "100".data, "200".data, "t1".data,
              "172.16.100.10".data, "t4".data, [], []⟩,
            ⟨"alice".data, "10.0.0.6".data, "1".data, "2".data, "t2".data, [], [], [], []⟩,
            ⟨"bob".data, "10.0.0.7".data, "3".data, "4".data, "t3".data, [], [], [], []⟩] := by
  have h := mgmtConnectedUsersParser_spec
    ("OpenVPN CLIENT LIST\nUpdated,Mon Jan 2\nCommon Name,Real Address,Bytes Received,Bytes Sent,Connected Since\nalice,10.0.0.5,100,200,t1\nalice,10.0.0.6,1,2,t2\nbob,10.0.0.7,3,4,t3\nROUTING TABLE\nVirtual Address,Common Name,Real Address,Last Ref\n172.16.100.10,alice,10.0.0.5,t4\nGLOBAL STATS\nMax bcast queue,0\nEND\n".data)
    ["OpenVPN CLIENT LIST".data, "Updated,Mon Jan 2".data]
    ["alice,10.0.0.5,100,200,t1".data, "alice,10.0.0.6,1,2,t2".data, "bob,10.0.0.7,3,4,t3".data]
    ["172.16.100.10,alice,10.0.0.5,t4".data]
    ["Max bcast queue,0".data, "END".data]
    (by decide) (by decide) (by decide) (by decide)
  rw [h.1]
  decide

end OvpnAdmin
